import Mathlib

set_option maxRecDepth 8192

/- Verification development for a small blockchain node core written in Go.
   The definitions below are shallow embeddings of the Go sources:
   Model/transaction.go, Model/mempool.go, Model/merkle.go, Model/block.go,
   Model/UTXOView.go, the Wallet part of Model/redis_mempool.go,
   helper/helper.go and mining/mining.go.

   Modeling conventions:
   - Go byte slices are `List Nat` with values reduced modulo 256 where the
     Go `byte` type forces it.
   - Go `int64` arithmetic wraps; additions of values are wrapped with
     `wrap64`.  Comparisons on stored fields are exact, as in Go.
   - Go maps keyed by the formatted string "txid:vout" (or "txid_vout") are
     modeled as association lists keyed by the pair (txid, vout); the format
     is injective because the decimal rendering of the integer index contains
     neither a colon nor an underscore, so the pair key is faithful.
   - Map iteration order (wallet UTXO maps) is modeled as list order.
   - The SHA-256 and RIPEMD-160 primitives used through external libraries
     are implemented concretely below; Ed25519 signing and verification are
     kept as explicit function parameters. -/

abbrev Bytes := List Nat

deriving instance DecidableEq for Except

/-- Go int64 wrap-around semantics for additions and subtractions. -/
def wrap64 (z : Int) : Int := (z + 2 ^ 63) % 2 ^ 64 - 2 ^ 63

/-- Go uint32 conversion of a (possibly negative) int, as in uint32(v). -/
def wrap32u (z : Int) : Nat := ((z % 2 ^ 32 + 2 ^ 32) % 2 ^ 32).toNat

/-- Go uint64 conversion of a (possibly negative) int64, as in uint64(v). -/
def wrap64u (z : Int) : Nat := ((z % 2 ^ 64 + 2 ^ 64) % 2 ^ 64).toNat

/- ---------- association-list model of Go maps ---------- -/

def alookup {κ ν : Type} [DecidableEq κ] : List (κ × ν) → κ → Option ν
  | [], _ => none
  | e :: rest, key => if e.1 = key then some e.2 else alookup rest key

def aerase {κ ν : Type} [DecidableEq κ] : List (κ × ν) → κ → List (κ × ν)
  | [], _ => []
  | e :: rest, key => if e.1 = key then aerase rest key else e :: aerase rest key

/-- Go map assignment m[k] = v. -/
def aset {κ ν : Type} [DecidableEq κ] (l : List (κ × ν)) (key : κ) (v : ν) :
    List (κ × ν) :=
  (key, v) :: aerase l key

/-- Membership insert for a Go set-valued map entry (set[k] = struct). -/
def keyInsert {κ : Type} [DecidableEq κ] (l : List κ) (k : κ) : List κ :=
  if k ∈ l then l else l ++ [k]

def keyRemove {κ : Type} [DecidableEq κ] : List κ → κ → List κ
  | [], _ => []
  | x :: rest, k => if x = k then keyRemove rest k else x :: keyRemove rest k

/- ---------- hex codec (encoding/hex) ---------- -/

def hexDigitVal (c : Char) : Option Nat :=
  let n := c.toNat
  if 48 ≤ n ∧ n ≤ 57 then some (n - 48)
  else if 97 ≤ n ∧ n ≤ 102 then some (n - 87)
  else if 65 ≤ n ∧ n ≤ 70 then some (n - 55)
  else none

/-- Pairwise hex decoding; mirrors Go hex.DecodeString, which returns the
    bytes decoded before the first error together with the error flag. -/
def hexDecodeAux : List Char → Bytes × Bool
  | [] => ([], true)
  | [_] => ([], false)
  | c1 :: c2 :: rest =>
    match hexDigitVal c1, hexDigitVal c2 with
    | some hi, some lo =>
      let r := hexDecodeAux rest
      ((16 * hi + lo) :: r.1, r.2)
    | _, _ => ([], false)

def hexDecodeP (s : String) : Bytes × Bool := hexDecodeAux s.data

def hexDecode (s : String) : Option Bytes :=
  let r := hexDecodeP s
  if r.2 then some r.1 else none

def hexCharOfNat (n : Nat) : Char :=
  if n < 10 then Char.ofNat (48 + n) else Char.ofNat (87 + n)

def hexEncode (bs : Bytes) : String :=
  String.mk (bs.foldr
    (fun b acc => hexCharOfNat (b % 256 / 16) :: hexCharOfNat (b % 16) :: acc) [])

/-- Go []byte(s) for the ASCII strings used as identifiers in this code. -/
def strBytes (s : String) : Bytes := s.data.map Char.toNat

/- ---------- SHA-256 (the doubled hash used throughout the node) ---------- -/

def rotr32 (x n : Nat) : Nat := (x >>> n ||| x <<< (32 - n)) % 2 ^ 32

def add32 (a b : Nat) : Nat := (a + b) % 2 ^ 32

def u32be (n : Nat) : Bytes :=
  [n / 2 ^ 24 % 256, n / 2 ^ 16 % 256, n / 2 ^ 8 % 256, n % 256]

def u64be (n : Nat) : Bytes := u32be (n / 2 ^ 32) ++ u32be (n % 2 ^ 32)

def u32le (n : Nat) : Bytes :=
  [n % 256, n / 2 ^ 8 % 256, n / 2 ^ 16 % 256, n / 2 ^ 24 % 256]

def u64le (n : Nat) : Bytes := u32le (n % 2 ^ 32) ++ u32le (n / 2 ^ 32)

def sha256Pad (msg : Bytes) : Bytes :=
  let l := msg.length
  msg ++ 0x80 :: List.replicate ((64 - (l + 9) % 64) % 64) 0 ++ u64be (8 * l)

/-- Split into 64-byte blocks.  The fuel argument (an upper bound on the
    number of blocks, each step consuming at least one byte) keeps the
    recursion structural so that proofs can evaluate it. -/
def chunksOf64Aux : Nat → Bytes → List Bytes
  | 0, _ => []
  | _, [] => []
  | fuel + 1, b :: rest =>
    ((b :: rest).take 64) :: chunksOf64Aux fuel ((b :: rest).drop 64)

def chunksOf64 (bs : Bytes) : List Bytes := chunksOf64Aux bs.length bs

def toWordsBE : Bytes → List Nat
  | b0 :: b1 :: b2 :: b3 :: rest =>
    ((((b0 % 256) * 256 + b1 % 256) * 256 + b2 % 256) * 256 + b3 % 256) ::
      toWordsBE rest
  | _ => []

def toWordsLE : Bytes → List Nat
  | b0 :: b1 :: b2 :: b3 :: rest =>
    ((((b3 % 256) * 256 + b2 % 256) * 256 + b1 % 256) * 256 + b0 % 256) ::
      toWordsLE rest
  | _ => []

def smallSigma0 (x : Nat) : Nat := rotr32 x 7 ^^^ rotr32 x 18 ^^^ (x >>> 3)

def smallSigma1 (x : Nat) : Nat := rotr32 x 17 ^^^ rotr32 x 19 ^^^ (x >>> 10)

def bigSigma0 (x : Nat) : Nat := rotr32 x 2 ^^^ rotr32 x 13 ^^^ rotr32 x 22

def bigSigma1 (x : Nat) : Nat := rotr32 x 6 ^^^ rotr32 x 11 ^^^ rotr32 x 25

def chFn (x y z : Nat) : Nat := (x &&& y) ^^^ ((x ^^^ 0xffffffff) &&& z)

def majFn (x y z : Nat) : Nat := (x &&& y) ^^^ (x &&& z) ^^^ (y &&& z)

def sha256K : List Nat :=
  [1116352408, 1899447441, 3049323471, 3921009573, 961987163, 1508970993,
   2453635748, 2870763221, 3624381080, 310598401, 607225278, 1426881987,
   1925078388, 2162078206, 2614888103, 3248222580, 3835390401, 4022224774,
   264347078, 604807628, 770255983, 1249150122, 1555081692, 1996064986,
   2554220882, 2821834349, 2952996808, 3210313671, 3336571891, 3584528711,
   113926993, 338241895, 666307205, 773529912, 1294757372, 1396182291,
   1695183700, 1986661051, 2177026350, 2456956037, 2730485921, 2820302411,
   3259730800, 3345764771, 3516065817, 3600352804, 4094571909, 275423344,
   430227734, 506948616, 659060556, 883997877, 958139571, 1322822218,
   1537002063, 1747873779, 1955562222, 2024104815, 2227730452, 2361852424,
   2428436474, 2756734187, 3204031479, 3329325298]

structure ShaState where
  a : Nat
  b : Nat
  c : Nat
  d : Nat
  e : Nat
  f : Nat
  g : Nat
  h : Nat
deriving Repr, DecidableEq

def sha256Extend (w : List Nat) : List Nat :=
  (List.range 48).foldl
    (fun ws j =>
      ws ++ [add32 (add32 (ws.getD j 0) (smallSigma0 (ws.getD (j + 1) 0)))
               (add32 (ws.getD (j + 9) 0) (smallSigma1 (ws.getD (j + 14) 0)))])
    w

def sha256Round (st : ShaState) (ki wi : Nat) : ShaState :=
  let t1 := add32 (add32 (add32 st.h (bigSigma1 st.e))
                    (add32 (chFn st.e st.f st.g) ki)) wi
  let t2 := add32 (bigSigma0 st.a) (majFn st.a st.b st.c)
  ⟨add32 t1 t2, st.a, st.b, st.c, add32 st.d t1, st.e, st.f, st.g⟩

def sha256Compress (st : ShaState) (block : Bytes) : ShaState :=
  let w := sha256Extend (toWordsBE block)
  let fin := (List.range 64).foldl
    (fun s j => sha256Round s (sha256K.getD j 0) (w.getD j 0)) st
  ⟨add32 st.a fin.a, add32 st.b fin.b, add32 st.c fin.c, add32 st.d fin.d,
   add32 st.e fin.e, add32 st.f fin.f, add32 st.g fin.g, add32 st.h fin.h⟩

def sha256 (msg : Bytes) : Bytes :=
  let st0 : ShaState :=
    ⟨1779033703, 3144134277, 1013904242, 2773480762,
     1359893119, 2600822924, 528734635, 1541459225⟩
  let fin := (chunksOf64 (sha256Pad msg)).foldl sha256Compress st0
  u32be fin.a ++ u32be fin.b ++ u32be fin.c ++ u32be fin.d ++
    u32be fin.e ++ u32be fin.f ++ u32be fin.g ++ u32be fin.h

/-- doubleSHA256 from Model/block.go. -/
def dsha256 (b : Bytes) : Bytes := sha256 (sha256 b)

/- ---------- RIPEMD-160 (golang.org/x/crypto/ripemd160) ---------- -/

def rotl32 (x n : Nat) : Nat := (x <<< n ||| x >>> (32 - n)) % 2 ^ 32

def rmdF (j x y z : Nat) : Nat :=
  if j < 16 then x ^^^ y ^^^ z
  else if j < 32 then (x &&& y) ||| ((x ^^^ 0xffffffff) &&& z)
  else if j < 48 then (x ||| (y ^^^ 0xffffffff)) ^^^ z
  else if j < 64 then (x &&& z) ||| (y &&& (z ^^^ 0xffffffff))
  else x ^^^ (y ||| (z ^^^ 0xffffffff))

def rmdKL (j : Nat) : Nat :=
  if j < 16 then 0 else if j < 32 then 0x5a827999
  else if j < 48 then 0x6ed9eba1 else if j < 64 then 0x8f1bbcdc
  else 0xa953fd4e

def rmdKR (j : Nat) : Nat :=
  if j < 16 then 0x50a28be6 else if j < 32 then 0x5c4dd124
  else if j < 48 then 0x6d703ef3 else if j < 64 then 0x7a6d76e9
  else 0

def rmdRL : List Nat :=
  [0, 1, 2, 3, 4, 5, 6, 7, 8, 9, 10, 11, 12, 13, 14, 15,
   7, 4, 13, 1, 10, 6, 15, 3, 12, 0, 9, 5, 2, 14, 11, 8,
   3, 10, 14, 4, 9, 15, 8, 1, 2, 7, 0, 6, 13, 11, 5, 12,
   1, 9, 11, 10, 0, 8, 12, 4, 13, 3, 7, 15, 14, 5, 6, 2,
   4, 0, 5, 9, 7, 12, 2, 10, 14, 1, 3, 8, 11, 6, 15, 13]

def rmdRR : List Nat :=
  [5, 14, 7, 0, 9, 2, 11, 4, 13, 6, 15, 8, 1, 10, 3, 12,
   6, 11, 3, 7, 0, 13, 5, 10, 14, 15, 8, 12, 4, 9, 1, 2,
   15, 5, 1, 3, 7, 14, 6, 9, 11, 8, 12, 2, 10, 0, 4, 13,
   8, 6, 4, 1, 3, 11, 15, 0, 5, 12, 2, 13, 9, 7, 10, 14,
   12, 15, 10, 4, 1, 5, 8, 7, 6, 2, 13, 14, 0, 3, 9, 11]

def rmdSL : List Nat :=
  [11, 14, 15, 12, 5, 8, 7, 9, 11, 13, 14, 15, 6, 7, 9, 8,
   7, 6, 8, 13, 11, 9, 7, 15, 7, 12, 15, 9, 11, 7, 13, 12,
   11, 13, 6, 7, 14, 9, 13, 15, 14, 8, 13, 6, 5, 12, 7, 5,
   11, 12, 14, 15, 14, 15, 9, 8, 9, 14, 5, 6, 8, 6, 5, 12,
   9, 15, 5, 11, 6, 8, 13, 12, 5, 12, 13, 14, 11, 8, 5, 6]

def rmdSR : List Nat :=
  [8, 9, 9, 11, 13, 15, 15, 5, 7, 7, 8, 11, 14, 14, 12, 6,
   9, 13, 15, 7, 12, 8, 9, 11, 7, 7, 12, 7, 6, 15, 13, 11,
   9, 7, 15, 11, 8, 6, 6, 14, 12, 13, 5, 14, 13, 13, 7, 5,
   15, 5, 8, 11, 14, 14, 6, 14, 6, 9, 12, 9, 12, 5, 15, 8,
   8, 5, 12, 9, 12, 5, 14, 6, 8, 13, 6, 5, 15, 13, 11, 11]

structure RmdLine where
  a : Nat
  b : Nat
  c : Nat
  d : Nat
  e : Nat
deriving Repr, DecidableEq

def rmdStep (x : List Nat) (jf k r s : Nat) (ln : RmdLine) : RmdLine :=
  let t := add32 (rotl32 (add32 (add32 (add32 ln.a (rmdF jf ln.b ln.c ln.d))
                                   (x.getD r 0)) k) s) ln.e
  ⟨ln.e, t, ln.b, rotl32 ln.c 10, ln.d⟩

structure RmdState where
  h0 : Nat
  h1 : Nat
  h2 : Nat
  h3 : Nat
  h4 : Nat
deriving Repr, DecidableEq

def ripemdCompress (st : RmdState) (block : Bytes) : RmdState :=
  let x := toWordsLE block
  let start : RmdLine := ⟨st.h0, st.h1, st.h2, st.h3, st.h4⟩
  let lf := (List.range 80).foldl
    (fun ln j => rmdStep x j (rmdKL j) (rmdRL.getD j 0) (rmdSL.getD j 0) ln) start
  let rt := (List.range 80).foldl
    (fun ln j => rmdStep x (79 - j) (rmdKR j) (rmdRR.getD j 0) (rmdSR.getD j 0) ln)
    start
  ⟨add32 st.h1 (add32 lf.c rt.d),
   add32 st.h2 (add32 lf.d rt.e),
   add32 st.h3 (add32 lf.e rt.a),
   add32 st.h4 (add32 lf.a rt.b),
   add32 st.h0 (add32 lf.b rt.c)⟩

def ripemdPad (msg : Bytes) : Bytes :=
  let l := msg.length
  msg ++ 0x80 :: List.replicate ((64 - (l + 9) % 64) % 64) 0 ++ u64le (8 * l)

def ripemd160 (msg : Bytes) : Bytes :=
  let st0 : RmdState := ⟨0x67452301, 0xefcdab89, 0x98badcfe, 0x10325476, 0xc3d2e1f0⟩
  let fin := (chunksOf64 (ripemdPad msg)).foldl ripemdCompress st0
  u32le fin.h0 ++ u32le fin.h1 ++ u32le fin.h2 ++ u32le fin.h3 ++ u32le fin.h4

/-- HashPubKey from Model/transaction.go: RIPEMD160 of SHA256 of the pubkey. -/
def hashPubKey (pubkey : Bytes) : Bytes := ripemd160 (sha256 pubkey)

/- ---------- data model (Model/transaction.go) ---------- -/

structure ScriptSig where
  asm : String
  hex : String
deriving Repr, DecidableEq

structure ScriptPubKey where
  asm : String
  hex : String
  addresses : List String
deriving Repr, DecidableEq

structure VOUT where
  value : Int
  n : Int
  scriptPubKey : ScriptPubKey
deriving Repr, DecidableEq

structure VIN where
  txid : String
  vout : Int
  scriptSig : ScriptSig
deriving Repr, DecidableEq

structure Transaction where
  version : Nat
  vin : List VIN
  vout : List VOUT
  lockTime : Nat
  txid : String
deriving Repr, DecidableEq

structure UTXO where
  txid : String
  index : Int
  vout : VOUT
deriving Repr, DecidableEq

/- ---------- codec (helper/helper.go and Transaction.Serialize) ---------- -/

/-- helper.WriteVarInt. -/
def varint (n : Nat) : Bytes :=
  if n < 0xfd then [n]
  else if n ≤ 0xffff then [0xfd, n % 256, n / 256 % 256]
  else if n ≤ 0xffffffff then 0xfe :: u32le n
  else 0xff :: u64le n

/-- helper.HexToBytesFixed32: zero-padded on the left to 32 bytes; errors on
    bad hex or more than 32 raw bytes. -/
def hexToBytesFixed32 (s : String) : Option Bytes :=
  match hexDecode s with
  | none => none
  | some raw =>
    if raw.length > 32 then none
    else some (List.replicate (32 - raw.length) 0 ++ raw)

/-- One input of Transaction.Serialize.  The Go code ignores decode errors:
    a failed HexToBytesFixed32 yields a nil slice (nothing is written) and a
    failed script decode writes the partially decoded bytes. -/
def serializeVin (vin : VIN) : Bytes :=
  let prevBytes := (hexToBytesFixed32 vin.txid).getD []
  let script := (hexDecodeP vin.scriptSig.hex).1
  prevBytes.reverse ++ u32le (wrap32u vin.vout) ++ varint script.length ++
    script ++ u32le 0xffffffff

def serializeVout (v : VOUT) : Bytes :=
  let scriptBytes := (hexDecodeP v.scriptPubKey.hex).1
  u64le (wrap64u v.value) ++ varint scriptBytes.length ++ scriptBytes

/-- Transaction.Serialize from Model/transaction.go. -/
def serialize (tx : Transaction) : Bytes :=
  u32le tx.version ++
    varint tx.vin.length ++ (tx.vin.map serializeVin).flatten ++
    varint tx.vout.length ++ (tx.vout.map serializeVout).flatten ++
    u32le tx.lockTime

/-- Transaction.ComputeTxID: reversed hex of the double SHA-256. -/
def computeTxID (tx : Transaction) : String :=
  hexEncode (dsha256 (serialize tx)).reverse

/-- Transaction.ShallowCopyEmptySigs.  The Go struct literal only sets Txid,
    Vin and Vout, so Version and LockTime are left at their zero values. -/
def shallowCopyEmptySigs (t : Transaction) : Transaction :=
  { version := 0
    vin := t.vin.map (fun v => { txid := v.txid, vout := v.vout,
                                 scriptSig := { asm := "", hex := "" } })
    vout := t.vout
    lockTime := 0
    txid := "" }

def modifyIdx {α : Type} (f : α → α) : List α → Nat → List α
  | [], _ => []
  | x :: rest, 0 => f x :: rest
  | x :: rest, n + 1 => x :: modifyIdx f rest n

/-- The sighash both SignEd25519 and VerifyForMempool compute inline for
    input i: empty all scriptSigs, set input i to the given hex, serialize
    and double-SHA256. -/
def sighashForInput (t : Transaction) (i : Nat) (spkHex : String) : Bytes :=
  let txCopy := shallowCopyEmptySigs t
  let txCopy2 :=
    { txCopy with
        vin := modifyIdx
          (fun v => { v with scriptSig := { v.scriptSig with hex := spkHex } })
          txCopy.vin i }
  dsha256 (serialize txCopy2)

/-- MakeP2PKHScriptPubKey; the Go code ignores the address decode error. -/
def makeP2PKHScriptPubKey (addr : String) : ScriptPubKey :=
  let pubKeyHash := (hexDecodeP addr).1
  { asm := ""
    hex := hexEncode ([0x76, 0xa9, 0x14] ++ pubKeyHash ++ [0x88, 0xac])
    addresses := [addr] }

/- ---------- mempool (Model/mempool.go) ---------- -/

structure Mempool where
  txs : List (String × Transaction)
  spent : List ((String × Int) × String)
  outputs : List ((String × Int) × VOUT)
  order : List String
  txSize : List (String × Nat)
  totalSize : Int
deriving Repr, DecidableEq

def emptyMempool : Mempool := ⟨[], [], [], [], [], 0⟩

def Mempool.getTransaction (m : Mempool) (txid : String) : Option Transaction :=
  alookup m.txs txid

def Mempool.isSpent (m : Mempool) (txid : String) (vout : Int) : Bool :=
  (alookup m.spent (txid, vout)).isSome

def Mempool.getOutput (m : Mempool) (txid : String) (vout : Int) : Option VOUT :=
  alookup m.outputs (txid, vout)

/-- InMemoryMempool.AddTransaction. -/
def Mempool.addTransaction (m : Mempool) (tx : Transaction) :
    Mempool × Option String :=
  if (alookup m.txs tx.txid).isSome then (m, some "tx already exists")
  else
    let size := (serialize tx).length
    let spent2 := tx.vin.foldl
      (fun sp vin => if vin.txid = "" then sp
                     else aset sp (vin.txid, vin.vout) tx.txid) m.spent
    let outputs2 := tx.vout.enum.foldl
      (fun os e => aset os (tx.txid, (e.1 : Int)) e.2) m.outputs
    ({ txs := aset m.txs tx.txid tx
       spent := spent2
       outputs := outputs2
       order := m.order ++ [tx.txid]
       txSize := aset m.txSize tx.txid size
       totalSize := m.totalSize + size }, none)

/-- InMemoryMempool.RemoveTransaction: all deletions are unconditional; the
    order list is left as is (lazy compaction). -/
def Mempool.removeTransaction (m : Mempool) (tx : Transaction) : Mempool :=
  { txs := aerase m.txs tx.txid
    spent := tx.vin.foldl
      (fun sp vin => if vin.txid = "" then sp else aerase sp (vin.txid, vin.vout))
      m.spent
    outputs := (List.range tx.vout.length).foldl
      (fun os i => aerase os (tx.txid, Int.ofNat i)) m.outputs
    order := m.order
    txSize := aerase m.txSize tx.txid
    totalSize := m.totalSize - ((alookup m.txSize tx.txid).getD 0 : Int) }

structure MempoolSnapshot where
  txids : List String
  size : Nat
deriving Repr, DecidableEq

def snapshotAux (m : Mempool) (maxBytes : Nat) :
    List String → Nat → List String × Nat
  | [], size => ([], size)
  | txid :: rest, size =>
    if (alookup m.txs txid).isNone then snapshotAux m maxBytes rest size
    else
      let ts := (alookup m.txSize txid).getD 0
      if size + ts > maxBytes then ([], size)
      else
        let r := snapshotAux m maxBytes rest (size + ts)
        (txid :: r.1, r.2)

/-- InMemoryMempool.SnapshotUntilSize. -/
def Mempool.snapshotUntilSize (m : Mempool) (maxBytes : Nat) : MempoolSnapshot :=
  let r := snapshotAux m maxBytes m.order 0
  ⟨r.1, r.2⟩

/- ---------- in-memory UTXO set (UTXOSet in Model/merkle.go) ---------- -/

structure UTXOSet where
  utxos : List ((String × Int) × UTXO)
  addrIndex : List (String × List (String × Int))
deriving Repr, DecidableEq

def emptyUTXOSet : UTXOSet := ⟨[], []⟩

def UTXOSet.get (u : UTXOSet) (txid : String) (vout : Int) : Option UTXO :=
  alookup u.utxos (txid, vout)

def addrIndexAdd (ai : List (String × List (String × Int)))
    (addrs : List String) (key : String × Int) :
    List (String × List (String × Int)) :=
  addrs.foldl
    (fun ai addr => aset ai addr (keyInsert ((alookup ai addr).getD []) key)) ai

def addrIndexRemove (ai : List (String × List (String × Int)))
    (addrs : List String) (key : String × Int) :
    List (String × List (String × Int)) :=
  addrs.foldl
    (fun ai addr =>
      match alookup ai addr with
      | none => ai
      | some s =>
        let s2 := keyRemove s key
        if s2.length = 0 then aerase ai addr else aset ai addr s2) ai

/-- UTXOSet.Put: fails on a duplicate key before any mutation. -/
def UTXOSet.put (u : UTXOSet) (txid : String) (vout : Int) (voutData : VOUT) :
    UTXOSet × Option String :=
  if (alookup u.utxos (txid, vout)).isSome then (u, some "utxo already exists")
  else
    ({ utxos := aset u.utxos (txid, vout) ⟨txid, vout, voutData⟩
       addrIndex := addrIndexAdd u.addrIndex voutData.scriptPubKey.addresses
         (txid, vout) }, none)

/-- UTXOSet.Delete: fails on a missing key before any mutation. -/
def UTXOSet.delete (u : UTXOSet) (txid : String) (vout : Int) :
    UTXOSet × Option String :=
  match alookup u.utxos (txid, vout) with
  | none => (u, some "utxo not found")
  | some utxo =>
    ({ utxos := aerase u.utxos (txid, vout)
       addrIndex := addrIndexRemove u.addrIndex
         utxo.vout.scriptPubKey.addresses (txid, vout) }, none)

/- ---------- wallet (Model/redis_mempool.go) ---------- -/

structure Wallet where
  address : String
  utxos : List ((String × Int) × UTXO)
deriving Repr, DecidableEq

/-- Wallet.GetSpendableUTXOs: the wallet view filtered by the mempool
    spent-index; map iteration order is modeled as list order. -/
def Wallet.getSpendableUTXOs (w : Wallet) (m : Mempool) : List UTXO :=
  (w.utxos.map (fun e => e.2)).filter (fun u => !(m.isSpent u.txid u.index))

/- ---------- signing and transaction construction ---------- -/

/-- The prev-output resolution used by SignEd25519 and VerifyForMempool:
    canonical UTXO set first, then mempool outputs (chained transactions). -/
def resolvePrevOut (us : UTXOSet) (m : Mempool) (vin : VIN) : Option VOUT :=
  match us.get vin.txid vin.vout with
  | some utxo => some utxo.vout
  | none => m.getOutput vin.txid vin.vout

/-- The per-input loop of Transaction.SignEd25519.  Ed25519 signing is the
    abstract parameter signFn (64-byte signature of the sighash); pub is the
    32-byte public key.  Each sighash is computed from the original
    transaction because ShallowCopyEmptySigs clears every scriptSig. -/
def signVinsAux (signFn : Bytes → Bytes) (pub : Bytes) (t : Transaction)
    (us : UTXOSet) (m : Mempool) : List VIN → Nat → Except String (List VIN)
  | [], _ => .ok []
  | vin :: rest, i =>
    match resolvePrevOut us m vin with
    | none => .error "cannot sign: missing input"
    | some prevOut =>
      let sighash := sighashForInput t i prevOut.scriptPubKey.hex
      let sig := signFn sighash
      let script := sig ++ pub
      let vin2 : VIN :=
        { vin with scriptSig := { asm := hexEncode sig ++ " " ++ hexEncode pub
                                  hex := hexEncode script } }
      match signVinsAux signFn pub t us m rest (i + 1) with
      | .error e => .error e
      | .ok vs => .ok (vin2 :: vs)

/-- Transaction.SignEd25519; the txid is recomputed after signing. -/
def signEd25519 (signFn : Bytes → Bytes) (pub : Bytes) (t : Transaction)
    (us : UTXOSet) (m : Mempool) : Except String Transaction :=
  if t.vin.length = 0 then .error "no inputs to sign"
  else
    match signVinsAux signFn pub t us m t.vin 0 with
    | .error e => .error e
    | .ok vins =>
      let t2 := { t with vin := vins }
      .ok { t2 with txid := computeTxID t2 }

/-- The greedy input selection loop of CreateTransaction: append candidates
    in order, tracking the running total with int64 wrap, and stop at the
    first prefix whose total reaches the amount. -/
def selectAux (amount : Int) : List UTXO → Int → List UTXO × Int
  | [], total => ([], total)
  | c :: rest, total =>
    let total2 := wrap64 (total + c.vout.value)
    if total2 ≥ amount then ([c], total2)
    else
      let r := selectAux amount rest total2
      (c :: r.1, r.2)

/-- CreateTransaction from Model/transaction.go. -/
def createTransaction (signFn : Bytes → Bytes) (pub : Bytes)
    (fromAddr toAddr : String) (amount : Int)
    (us : UTXOSet) (m : Mempool) (w : Wallet) : Except String Transaction :=
  let candidates := w.getSpendableUTXOs m
  if candidates.length = 0 then .error "no spendable outputs"
  else
    let sel := selectAux amount candidates 0
    if sel.2 < amount then .error "insufficient funds"
    else
      let vins := sel.1.map
        (fun c => VIN.mk c.txid c.index { asm := "", hex := "" })
      let vouts :=
        if sel.2 > amount then
          [VOUT.mk amount 0 (makeP2PKHScriptPubKey toAddr),
           VOUT.mk (wrap64 (sel.2 - amount)) 1 (makeP2PKHScriptPubKey fromAddr)]
        else [VOUT.mk amount 0 (makeP2PKHScriptPubKey toAddr)]
      signEd25519 signFn pub (Transaction.mk 1 vins vouts 0 "") us m

/- ---------- mempool verification (VerifyForMempool) ---------- -/

/-- The duplicate-input scan: the Go code records each (prev txid, prev vout)
    key in a seen map and rejects on a repeat. -/
def hasDupAux : List (String × Int) → List VIN → Bool
  | _, [] => false
  | seen, vin :: rest =>
    if (vin.txid, vin.vout) ∈ seen then true
    else hasDupAux ((vin.txid, vin.vout) :: seen) rest

def hasDupInputs (vins : List VIN) : Bool := hasDupAux [] vins

/-- The per-input loop of VerifyForMempool.  Returns the accumulated
    (int64-wrapped) input sum, or none on the first failing input.
    ed is the abstract Ed25519 verification primitive
    (public key, message, signature). -/
def verifyInputsAux (ed : Bytes → Bytes → Bytes → Bool) (t : Transaction)
    (us : UTXOSet) (m : Mempool) : List VIN → Nat → Int → Option Int
  | [], _, acc => some acc
  | vin :: rest, i, acc =>
    if vin.txid = "" then none
    else if m.isSpent vin.txid vin.vout then none
    else
      match resolvePrevOut us m vin with
      | none => none
      | some prevOut =>
        match hexDecode vin.scriptSig.hex with
        | none => none
        | some scriptBytes =>
          if scriptBytes.length ≠ 96 then none
          else
            let sigBytes := scriptBytes.take 64
            let pubBytes := scriptBytes.drop 64
            match hexDecode prevOut.scriptPubKey.hex with
            | none => none
            | some spk =>
              if spk.length < 25 then none
              else if hashPubKey pubBytes ≠ (spk.drop 3).take 20 then none
              else if ed pubBytes (sighashForInput t i (hexEncode spk)) sigBytes
              then verifyInputsAux ed t us m rest (i + 1)
                     (wrap64 (acc + prevOut.value))
              else none

/-- The output loop shared by VerifyForMempool and VerifyTxWithView: every
    value must be positive; the sum accumulates with int64 wrap. -/
def checkOutputsAux : List VOUT → Int → Option Int
  | [], acc => some acc
  | out :: rest, acc =>
    if out.value ≤ 0 then none
    else checkOutputsAux rest (wrap64 (acc + out.value))

/-- VerifyForMempool from Model/transaction.go. -/
def verifyForMempool (ed : Bytes → Bytes → Bytes → Bool) (t : Transaction)
    (us : UTXOSet) (m : Mempool) : Bool :=
  if t.vin.length = 0 ∨ t.vout.length = 0 then false
  else if hasDupInputs t.vin then false
  else
    match verifyInputsAux ed t us m t.vin 0 0 with
    | none => false
    | some inputSum =>
      match checkOutputsAux t.vout 0 with
      | none => false
      | some outputSum => inputSum ≥ outputSum

/- ---------- block verification (UTXOView, VerifyTxWithView) ---------- -/

structure UTXOView where
  utxos : List ((String × Int) × UTXO)
deriving Repr, DecidableEq

/-- NewUTXOViewFromSet: a shadow copy of the primary map. -/
def newUTXOViewFromSet (u : UTXOSet) : UTXOView := ⟨u.utxos⟩

/-- The input loop of VerifyTxWithView.  Script and signature verification
    is skipped by the Go code ("disabled for performance"). -/
def viewInputsAux (v : UTXOView) : List VIN → Int → Except String Int
  | [], acc => .ok acc
  | vin :: rest, acc =>
    if vin.txid = "" then .error "coinbase not allowed"
    else
      match alookup v.utxos (vin.txid, vin.vout) with
      | none => .error "missing utxo"
      | some utxo => viewInputsAux v rest (wrap64 (acc + utxo.vout.value))

/-- VerifyTxWithView; returns an error message, none meaning valid. -/
def verifyTxWithView (t : Transaction) (v : UTXOView) : Option String :=
  if t.vin.length = 0 ∨ t.vout.length = 0 then some "empty vin or vout"
  else if hasDupInputs t.vin then some "duplicate input"
  else
    match viewInputsAux v t.vin 0 with
    | .error e => some e
    | .ok inputSum =>
      match checkOutputsAux t.vout 0 with
      | none => some "invalid output value"
      | some outputSum =>
        if inputSum < outputSum then some "input < output" else none

/-- ApplyTxToView: delete every input key (no coinbase skip here) and insert
    every output of the transaction into the view. -/
def applyTxToView (tx : Transaction) (v : UTXOView) : UTXOView :=
  let u1 := tx.vin.foldl (fun us vin => aerase us (vin.txid, vin.vout)) v.utxos
  ⟨tx.vout.enum.foldl
    (fun us e => aset us (tx.txid, (e.1 : Int)) ⟨tx.txid, (e.1 : Int), e.2⟩) u1⟩

def verifyBlockTxsAux (v : UTXOView) : List Transaction → Option String
  | [] => none
  | tx :: rest =>
    match verifyTxWithView tx v with
    | some e => some e
    | none => verifyBlockTxsAux (applyTxToView tx v) rest

/-- VerifyBlock: verify and apply each transaction, in block order, against
    a fresh view of the UTXO set.  The Go function receives a *Block but
    reads only its Transactions field, so the embedding takes the list. -/
def verifyBlock (txs : List Transaction) (us : UTXOSet) : Option String :=
  verifyBlockTxsAux (newUTXOViewFromSet us) txs

/- ---------- block commit (CommitBlock, phase 1) ---------- -/

/-- The input-deletion loop of CommitBlock: coinbase inputs are skipped; the
    first Delete error is returned immediately, keeping earlier mutations. -/
def commitVinsAux : UTXOSet → List VIN → UTXOSet × Option String
  | u, [] => (u, none)
  | u, vin :: rest =>
    if vin.txid = "" then commitVinsAux u rest
    else
      match u.delete vin.txid vin.vout with
      | (u2, some e) => (u2, some e)
      | (u2, none) => commitVinsAux u2 rest

/-- The output-insertion loop of CommitBlock over the enumerated outputs. -/
def commitVoutsAux (txid : String) : UTXOSet → List (Nat × VOUT) → UTXOSet × Option String
  | u, [] => (u, none)
  | u, (i, out) :: rest =>
    match u.put txid (Int.ofNat i) out with
    | (u2, some e) => (u2, some e)
    | (u2, none) => commitVoutsAux txid u2 rest

def commitTxsAux : UTXOSet → List Transaction → UTXOSet × Option String
  | u, [] => (u, none)
  | u, tx :: rest =>
    match commitVinsAux u tx.vin with
    | (u2, some e) => (u2, some e)
    | (u2, none) =>
      match commitVoutsAux tx.txid u2 tx.vout.enum with
      | (u3, some e) => (u3, some e)
      | (u3, none) => commitTxsAux u3 rest

/-- CommitBlock from Model/transaction.go, phase 1 (the in-memory UTXOSet
    update).  Phase 2 mirrors the same changes into the external Badger
    store, which the specification treats as an external collaborator.
    The Go function mutates the set in place and returns an error; the
    embedding returns the mutated set together with the error. -/
def commitBlock (txs : List Transaction) (u : UTXOSet) : UTXOSet × Option String :=
  commitTxsAux u txs

/- ---------- miner (mining/mining.go) ---------- -/

def maxBlockSizeBytes : Nat := 4 * 1024 * 1024

def blockIntervalMs : Nat := 5000

/-- The gate of the miner tick (mining.go lines 59-72): after taking the
    snapshot, the miner proceeds to build, verify and commit a block only if
    the snapshot is non-empty and its size reaches half the block limit.
    The elapsed time since the interval anchor is passed here because the
    specification quantifies over it, but the Go loop never consults it:
    BlockInterval is declared and unused. -/
def minerTickBuilds (snap : MempoolSnapshot) (_elapsedMs : Nat) : Bool :=
  if snap.txids.length = 0 then false
  else if snap.size < maxBlockSizeBytes / 2 then false
  else true

/- ---------- Merkle root (Model/merkle.go) ---------- -/

/-- TxMerkleItem.CalculateHash: a single SHA-256 of the txid bytes. -/
def txMerkleItemHash (txidBytes : Bytes) : Bytes := sha256 txidBytes

/-- ComputeMerkleRoot as written in Model/merkle.go: the empty byte string
    for no transactions, otherwise ("for demo") the hash of the first item
    only. -/
def computeMerkleRoot (txs : List Transaction) : Bytes :=
  if txs.length = 0 then []
  else
    match txs.map (fun tx => strBytes tx.txid) with
    | [] => []
    | it :: _ => txMerkleItemHash it

/-- Modelled from the spec: one combining level of the binary Merkle tree
    required by section 4.9 - each internal node is SHA2562 of the
    concatenation, and an odd final node duplicates the last. -/
def merkleCombine : List Bytes → List Bytes
  | [] => []
  | [x] => [dsha256 (x ++ x)]
  | x :: y :: rest => dsha256 (x ++ y) :: merkleCombine rest

/-- Modelled from the spec: reduce levels until one root remains. -/
def merkleReduce : List Bytes → Bytes
  | [] => List.replicate 32 0
  | [x] => x
  | x :: y :: rest => merkleReduce (merkleCombine (x :: y :: rest))
termination_by l => l.length
decreasing_by
  have step : ∀ l : List Bytes, (merkleCombine l).length ≤ l.length := by
    intro l
    induction l using merkleCombine.induct with
    | case1 => simp [merkleCombine]
    | case2 _ => simp [merkleCombine]
    | case3 x y r ih => simp [merkleCombine]; omega
  have h2 := step rest
  simp [merkleCombine]
  omega

/-- Modelled from the spec (section 4.9 Merkle root, absent from the source,
    which ships only the debug variant): leaves are the raw txid byte
    strings; zero transactions give 32 zero bytes; one transaction gives
    SHA2562 of its leaf; otherwise the doubled-SHA256 binary tree. -/
def specMerkleRoot (txs : List Transaction) : Bytes :=
  match txs.map (fun tx => strBytes tx.txid) with
  | [] => List.replicate 32 0
  | [l] => dsha256 l
  | l :: l2 :: rest => merkleReduce (merkleCombine (l :: l2 :: rest))

/- ---------- specification-side definitions (claim formalizations) ---------- -/

/-- The outpoint keys of the non-coinbase inputs of a transaction. -/
def txVinKeys (tx : Transaction) : List (String × Int) :=
  (tx.vin.filter (fun v => v.txid ≠ "")).map (fun v => (v.txid, v.vout))

/-- The (key, UTXO) pairs CommitBlock inserts for one transaction. -/
def txPutAssoc (tx : Transaction) : List ((String × Int) × UTXO) :=
  tx.vout.enum.map (fun e => ((tx.txid, (Int.ofNat e.1)), ⟨tx.txid, (Int.ofNat e.1), e.2⟩))

def blockInKeys (txs : List Transaction) : List (String × Int) :=
  (txs.map txVinKeys).flatten

def blockOutKeys (txs : List Transaction) : List (String × Int) :=
  (txs.map (fun tx => (txPutAssoc tx).map (fun e => e.1))).flatten

/-- The previous-output value an input resolves to (0 when unresolved; the
    verifier rejects that case separately). -/
def prevValue (us : UTXOSet) (m : Mempool) (v : VIN) : Int :=
  match resolvePrevOut us m v with
  | some p => p.value
  | none => 0

/-- int64-wrapped running sum of resolved input values. -/
def inputWSum (us : UTXOSet) (m : Mempool) (vins : List VIN) : Int :=
  vins.foldl (fun a v => wrap64 (a + prevValue us m v)) 0

/-- int64-wrapped running sum of output values. -/
def outputWSum (vouts : List VOUT) : Int :=
  vouts.foldl (fun a o => wrap64 (a + o.value)) 0

/-- Exact (unbounded) sum of resolved input values. -/
def inputESum (us : UTXOSet) (m : Mempool) (vins : List VIN) : Int :=
  (vins.map (prevValue us m)).sum

def outputESum (vouts : List VOUT) : Int := (vouts.map VOUT.value).sum

/-- The script-and-signature condition of claim C6 for input i: the 96-byte
    scriptSig splits into (sig, pub), the RIPEMD160-SHA256 hash of pub
    equals bytes 3..23 of the decoded previous scriptPubKey, and the
    Ed25519 oracle accepts (pub, sighash i, sig). -/
def inputScriptOk (ed : Bytes → Bytes → Bytes → Bool) (t : Transaction)
    (us : UTXOSet) (m : Mempool) (i : Nat) (v : VIN) : Bool :=
  match resolvePrevOut us m v with
  | none => false
  | some prevOut =>
    match hexDecode v.scriptSig.hex with
    | none => false
    | some sb =>
      decide (sb.length = 96) &&
      (match hexDecode prevOut.scriptPubKey.hex with
       | none => false
       | some spk =>
         decide (25 ≤ spk.length) &&
         decide (hashPubKey (sb.drop 64) = (spk.drop 3).take 20) &&
         ed (sb.drop 64) (sighashForInput t i (hexEncode spk)) (sb.take 64))

/-- All per-input conditions of claim C6 for input i bundled together:
    not coinbase, not spent in the mempool, resolvable, and script and
    signature valid. -/
def singleInputOk (ed : Bytes → Bytes → Bytes → Bool) (t : Transaction)
    (us : UTXOSet) (m : Mempool) (i : Nat) (v : VIN) : Bool :=
  decide (v.txid ≠ "") && !(m.isSpent v.txid v.vout) &&
    (resolvePrevOut us m v).isSome && inputScriptOk ed t us m i v

/-- The conditions of claim C6 except the final sum comparison, written as
    the claim itemizes them. -/
def specVerifyConditions (ed : Bytes → Bytes → Bytes → Bool) (t : Transaction)
    (us : UTXOSet) (m : Mempool) : Bool :=
  decide (t.vin ≠ []) && decide (t.vout ≠ []) &&
  t.vin.all (fun v => decide (v.txid ≠ "")) &&
  decide ((t.vin.map (fun v => (v.txid, v.vout))).Nodup) &&
  t.vin.all (fun v => !(m.isSpent v.txid v.vout)) &&
  t.vin.all (fun v => (resolvePrevOut us m v).isSome) &&
  (t.vin.enumFrom 0).all (fun e => inputScriptOk ed t us m e.1 e.2) &&
  t.vout.all (fun o => decide (0 < o.value))

/-- Claim C6 as stated: conditions plus exact-sum comparison. -/
def specVerifyForMempoolExact (ed : Bytes → Bytes → Bytes → Bool)
    (t : Transaction) (us : UTXOSet) (m : Mempool) : Bool :=
  specVerifyConditions ed t us m &&
    decide (inputESum us m t.vin ≥ outputESum t.vout)

/-- Claim C6 amended: the sums are the int64-wrapped ones the code computes. -/
def specVerifyForMempoolWrapped (ed : Bytes → Bytes → Bytes → Bool)
    (t : Transaction) (us : UTXOSet) (m : Mempool) : Bool :=
  specVerifyConditions ed t us m &&
    decide (inputWSum us m t.vin ≥ outputWSum t.vout)

/-- The sighash preimage transaction of claim C5: a copy of t whose
    scriptSigs are all empty except input i, which carries the given hex,
    with explicit version and locktime fields. -/
def specSighashCopy (t : Transaction) (i : Nat) (spkHex : String)
    (ver lock : Nat) : Transaction :=
  { version := ver
    vin := t.vin.enum.map (fun e =>
      { txid := e.2.txid
        vout := e.2.vout
        scriptSig := { asm := "", hex := if e.1 = i then spkHex else "" } })
    vout := t.vout
    lockTime := lock
    txid := t.txid }

/-- int64-wrapped running total of a list of wallet UTXO values, starting
    from an accumulator (the greedy selection total of CreateTransaction). -/
def wsumFrom (acc : Int) (l : List UTXO) : Int :=
  l.foldl (fun a c => wrap64 (a + c.vout.value)) acc

def wsumValues (l : List UTXO) : Int := wsumFrom 0 l

/-- Recorded size of a list of mempool txids (missing entries count 0). -/
def sizeSum (m : Mempool) (ids : List String) : Nat :=
  (ids.map (fun id => (alookup m.txSize id).getD 0)).sum

/-- The insertion order restricted to txids still present in txs. -/
def presentOrder (m : Mempool) : List String :=
  m.order.filter (fun id => (alookup m.txs id).isSome)

/- ---------- concrete fixtures for counterexamples and witnesses ---------- -/

def cPub : Bytes := List.replicate 32 9

def cAddr : String := hexEncode (hashPubKey cPub)

def cSpk : ScriptPubKey := makeP2PKHScriptPubKey cAddr

def cSign : Bytes → Bytes := fun _ => List.replicate 64 7

/-- An Ed25519 oracle that accepts every triple; instantiating the abstract
    primitive with it shows divergences that hold for any oracle accepting
    the signatures of the concrete input. -/
def edAcceptAll : Bytes → Bytes → Bytes → Bool := fun _ _ _ => true

def c1Tx : Transaction := ⟨1, [], [⟨5, 0, cSpk⟩], 0, "ab"⟩

def c2Out : VOUT := ⟨10, 0, cSpk⟩

def c2Set : UTXOSet := (emptyUTXOSet.put "aa" 0 c2Out).1

/-- A transaction whose single input carries an empty scriptSig: no 96-byte
    signature at all, hence invalid for any Ed25519 oracle. -/
def c2Tx : Transaction := ⟨1, [⟨"aa", 0, ⟨"", ""⟩⟩], [⟨5, 0, cSpk⟩], 0, "cc"⟩

def c3SetA : UTXOSet := (emptyUTXOSet.put "aa" 0 ⟨10, 0, cSpk⟩).1

/-- Spends one existing and one missing outpoint: Delete fails on the second
    input after the first was already applied. -/
def c3TxA : Transaction :=
  ⟨1, [⟨"aa", 0, ⟨"", ""⟩⟩, ⟨"bb", 0, ⟨"", ""⟩⟩], [⟨5, 0, cSpk⟩], 0, "dd"⟩

def c3SetB : UTXOSet := (emptyUTXOSet.put "gg" 0 ⟨10, 0, cSpk⟩).1

def c3Tx1 : Transaction := ⟨1, [⟨"gg", 0, ⟨"", ""⟩⟩], [⟨10, 0, cSpk⟩], 0, "t1"⟩

/-- Spends the first output of c3Tx1 inside the same block. -/
def c3Tx2 : Transaction := ⟨1, [⟨"t1", 0, ⟨"", ""⟩⟩], [⟨10, 0, cSpk⟩], 0, "t2"⟩

def c5Tx : Transaction := ⟨1, [⟨"ab", 0, ⟨"", "1234"⟩⟩], [⟨7, 0, cSpk⟩], 0, "xx"⟩

def c5Spk : String := "00ff10"

/-- A 96-byte scriptSig: 64 filler signature bytes followed by cPub. -/
def ovSig : String := hexEncode (List.replicate 64 7 ++ cPub)

def ovOut : VOUT := ⟨2 ^ 63 - 1, 0, cSpk⟩

def ovSet : UTXOSet := ((emptyUTXOSet.put "a1" 0 ovOut).1.put "a2" 0 ovOut).1

/-- Two maximal int64 inputs whose exact sum exceeds the int64 range. -/
def ovTx : Transaction :=
  ⟨1, [⟨"a1", 0, ⟨"", ovSig⟩⟩, ⟨"a2", 0, ⟨"", ovSig⟩⟩], [⟨1, 0, cSpk⟩], 0, "ov"⟩

def c7Out1 : VOUT := ⟨2, 0, cSpk⟩

def c7Out2 : VOUT := ⟨2 ^ 63 - 1, 0, cSpk⟩

/-- Wallet whose exact total 2^63+1 reaches any int64 amount, but whose
    wrapped running total goes negative. -/
def c7Wallet : Wallet :=
  ⟨cAddr, [(("aa", 0), ⟨"aa", 0, c7Out1⟩), (("ab", 0), ⟨"ab", 0, c7Out2⟩)]⟩

def c7SmallSet : UTXOSet := (emptyUTXOSet.put "aa" 0 ⟨5, 0, cSpk⟩).1

def c7SmallWallet : Wallet := ⟨cAddr, [(("aa", 0), ⟨"aa", 0, ⟨5, 0, cSpk⟩⟩)]⟩

def c7SmallRes : Except String Transaction :=
  createTransaction cSign cPub cAddr "bb" 3 c7SmallSet emptyMempool c7SmallWallet

/-- The transaction c7SmallRes succeeds with (pay 3 to bb, change 2 back). -/
def c7tx : Transaction :=
  match c7SmallRes with
  | .ok t => t
  | .error _ => ⟨0, [], [], 0, ""⟩

def cTxA : Transaction := ⟨1, [], [], 0, "a"⟩

def cTxB : Transaction := ⟨1, [], [], 0, "b"⟩

/-- Mempool fixture for the snapshot witness: order lists a stale id x and a
    trailing id c missing from txs. -/
def c8Mem : Mempool :=
  ⟨[("a", cTxA), ("b", cTxB)], [], [], ["a", "x", "b", "c"],
   [("a", 3), ("b", 2), ("c", 9)], 5⟩

def c9Set : UTXOSet := (emptyUTXOSet.put "aa" 0 ⟨7, 0, cSpk⟩).1

def c10TxA : Transaction := ⟨1, [⟨"p", 0, ⟨"", ""⟩⟩], [⟨5, 0, cSpk⟩], 0, "ta"⟩

/-- Never admitted, but spends the same outpoint as c10TxA. -/
def c10TxB : Transaction := ⟨1, [⟨"p", 0, ⟨"", ""⟩⟩], [⟨6, 0, cSpk⟩], 0, "tb"⟩

def c10Mem : Mempool := (emptyMempool.addTransaction c10TxA).1

/- =====================================================================
   Theorems.  Shared helper lemmas first, then one theorem per claim
   (with witnesses and counterexamples where required).
   ===================================================================== -/

theorem alookup_aerase {κ ν : Type} [DecidableEq κ] (l : List (κ × ν))
    (k k2 : κ) :
    alookup (aerase l k) k2 = if k2 = k then none else alookup l k2 := by
  induction l with
  | nil => simp only [aerase, alookup]; split <;> rfl
  | cons e rest ih =>
    simp only [aerase]
    by_cases h1 : e.1 = k
    · rw [if_pos h1, ih]
      by_cases h2 : k2 = k
      · simp [h2]
      · have h3 : ¬ e.1 = k2 := by rw [h1]; exact fun h => h2 h.symm
        simp [alookup, h2, h3]
    · rw [if_neg h1]
      simp only [alookup]
      by_cases h2 : e.1 = k2
      · have hk2 : ¬ k2 = k := by intro hh; exact h1 (by rw [h2, hh])
        simp [h2, hk2]
      · simp [h2, ih]

theorem alookup_aset {κ ν : Type} [DecidableEq κ] (l : List (κ × ν))
    (k k2 : κ) (v : ν) :
    alookup (aset l k v) k2 = if k2 = k then some v else alookup l k2 := by
  simp only [aset, alookup]
  by_cases h : k = k2
  · simp [h]
  · have h2 : ¬ k2 = k := fun hh => h hh.symm
    simp [h, h2, alookup_aerase]

/-- C9: when UTXOSet.Put returns an error (key already present) or
    UTXOSet.Delete returns an error (key missing), the whole state - the
    primary utxos map and the addrIndex secondary index - is unchanged;
    moreover the error occurs exactly in those situations. -/
theorem c9_put_delete_error_atomic (u : UTXOSet) (txid : String) (vout : Int)
    (o : VOUT) :
    ((u.put txid vout o).2.isSome → (u.put txid vout o).1 = u) ∧
    ((u.delete txid vout).2.isSome → (u.delete txid vout).1 = u) ∧
    ((u.put txid vout o).2.isSome ↔ (u.get txid vout).isSome) ∧
    ((u.delete txid vout).2.isSome ↔ (u.get txid vout).isNone) := by
  unfold UTXOSet.put UTXOSet.delete UTXOSet.get
  cases h : alookup u.utxos (txid, vout) <;> simp [h]

/-- Witness for C9 at a concrete set: a duplicate Put and a missing Delete
    leave the state untouched. -/
theorem c9_witness :
    (c9Set.put "aa" 0 ⟨1, 0, cSpk⟩).1 = c9Set ∧ (c9Set.delete "zz" 0).1 = c9Set :=
  ⟨(c9_put_delete_error_atomic c9Set "aa" 0 ⟨1, 0, cSpk⟩).1 (by decide),
   (c9_put_delete_error_atomic c9Set "zz" 0 ⟨1, 0, cSpk⟩).2.1 (by decide)⟩

theorem spent_fold_lookup (l : List VIN) (start : List ((String × Int) × String))
    (k : String × Int) :
    alookup (l.foldl (fun sp vin => if vin.txid = "" then sp
                      else aerase sp (vin.txid, vin.vout)) start) k =
      if ∃ v ∈ l, v.txid ≠ "" ∧ (v.txid, v.vout) = k then none
      else alookup start k := by
  induction l generalizing start with
  | nil => simp
  | cons v rest ih =>
    simp only [List.foldl_cons]
    have hcons : ∀ P : Prop, (∃ w ∈ v :: rest, w.txid ≠ "" ∧ (w.txid, w.vout) = k) ↔
        ((v.txid ≠ "" ∧ (v.txid, v.vout) = k) ∨
         ∃ w ∈ rest, w.txid ≠ "" ∧ (w.txid, w.vout) = k) := by
      intro _
      constructor
      · rintro ⟨w, hw, hwt, hwk⟩
        rcases List.mem_cons.mp hw with h | h
        · exact Or.inl ⟨h ▸ hwt, h ▸ hwk⟩
        · exact Or.inr ⟨w, h, hwt, hwk⟩
      · rintro (⟨hvt, hvk⟩ | ⟨w, hw, hwt, hwk⟩)
        · exact ⟨v, List.mem_cons_self _ _, hvt, hvk⟩
        · exact ⟨w, List.mem_cons_of_mem _ hw, hwt, hwk⟩
    by_cases hc : v.txid = ""
    · rw [if_pos hc, ih]
      by_cases h2 : ∃ w ∈ rest, w.txid ≠ "" ∧ (w.txid, w.vout) = k
      · rw [if_pos h2, if_pos ((hcons True).mpr (Or.inr h2))]
      · rw [if_neg h2, if_neg ?hn]
        case hn =>
          intro hh
          rcases (hcons True).mp hh with ⟨hvt, _⟩ | hr
          · exact hvt hc
          · exact h2 hr
    · rw [if_neg hc, ih, alookup_aerase]
      by_cases h2 : ∃ w ∈ rest, w.txid ≠ "" ∧ (w.txid, w.vout) = k
      · rw [if_pos h2, if_pos ((hcons True).mpr (Or.inr h2))]
      · rw [if_neg h2]
        by_cases h3 : k = (v.txid, v.vout)
        · rw [if_pos h3, if_pos ((hcons True).mpr (Or.inl ⟨hc, h3.symm⟩))]
        · rw [if_neg h3, if_neg ?hn2]
          case hn2 =>
            intro hh
            rcases (hcons True).mp hh with ⟨_, hvk⟩ | hr
            · exact h3 hvk.symm
            · exact h2 hr

theorem out_fold_lookup (n : Nat) (t : String)
    (start : List ((String × Int) × VOUT)) (k : String × Int) :
    alookup ((List.range n).foldl (fun os i => aerase os (t, Int.ofNat i)) start) k =
      if ∃ i < n, k = (t, Int.ofNat i) then none else alookup start k := by
  induction n generalizing start with
  | zero => simp
  | succ n ih =>
    rw [List.range_succ, List.foldl_append]
    simp only [List.foldl_cons, List.foldl_nil]
    rw [alookup_aerase, ih]
    by_cases h3 : k = (t, Int.ofNat n)
    · rw [if_pos h3, if_pos ⟨n, Nat.lt_succ_self n, h3⟩]
    · rw [if_neg h3]
      by_cases h1 : ∃ i < n, k = (t, Int.ofNat i)
      · rw [if_pos h1, if_pos ?ha]
        case ha =>
          rcases h1 with ⟨i, hi, hk⟩
          exact ⟨i, Nat.lt_succ_of_lt hi, hk⟩
      · rw [if_neg h1, if_neg ?hb]
        case hb =>
          rintro ⟨i, hi, hk⟩
          rcases Nat.lt_succ_iff_lt_or_eq.mp hi with h | h
          · exact h1 ⟨i, h, hk⟩
          · exact h3 (h ▸ hk)


/-- C10: RemoveTransaction deletes unconditionally, with no membership
    check: for any mempool state, after removing tx the txid is gone from
    txs, every non-coinbase input of tx is no longer marked spent - even if
    the mark was recorded by a different admitted transaction - and every
    output slot of tx is gone from the unconfirmed-output index. -/
theorem c10_remove_unconditional (m : Mempool) (tx : Transaction) :
    (m.removeTransaction tx).getTransaction tx.txid = none ∧
    (∀ vin ∈ tx.vin, vin.txid ≠ "" →
       (m.removeTransaction tx).isSpent vin.txid vin.vout = false) ∧
    (∀ i < tx.vout.length,
       (m.removeTransaction tx).getOutput tx.txid (Int.ofNat i) = none) := by
  refine ⟨?_, ?_, ?_⟩
  · unfold Mempool.removeTransaction Mempool.getTransaction
    simp [alookup_aerase]
  · intro vin hv hnc
    have hex : ∃ v ∈ tx.vin, v.txid ≠ "" ∧ (v.txid, v.vout) = (vin.txid, vin.vout) :=
      ⟨vin, hv, hnc, rfl⟩
    unfold Mempool.removeTransaction Mempool.isSpent
    simp only
    rw [spent_fold_lookup, if_pos hex]
    rfl
  · intro i hi
    unfold Mempool.removeTransaction Mempool.getOutput
    simp only
    rw [out_fold_lookup, if_pos ⟨i, hi, rfl⟩]

/-- Witness for C10: in a mempool where admitted transaction ta spent
    outpoint (p, 0), removing the never-admitted transaction tb - which
    spends the same outpoint - erases the spent mark ta recorded. -/
theorem c10_witness :
    c10Mem.isSpent "p" 0 = true ∧
    (c10Mem.removeTransaction c10TxB).isSpent "p" 0 = false :=
  ⟨by decide,
   (c10_remove_unconditional c10Mem c10TxB).2.1 ⟨"p", 0, ⟨"", ""⟩⟩
     (by decide) (by decide)⟩

/-- C1 (the code): ComputeMerkleRoot returns the empty byte string for zero
    transactions - not 32 zero bytes - and for a non-empty list returns a
    single SHA-256 of the first txid only, which differs from the doubled
    SHA-256 Merkle root the specification requires even for one
    transaction. -/
theorem c1_merkle_debug_behavior :
    computeMerkleRoot [] = ([] : Bytes) ∧
    ([] : Bytes) ≠ List.replicate 32 0 ∧
    computeMerkleRoot [c1Tx] = txMerkleItemHash (strBytes c1Tx.txid) ∧
    computeMerkleRoot [c1Tx] ≠ specMerkleRoot [c1Tx] := by
  refine ⟨rfl, by decide, rfl, by decide⟩

/-- C2 (the code): a block containing a transaction whose input carries an
    empty scriptSig - no 96-byte signature at all, invalid for every
    Ed25519 oracle, as the second conjunct shows - passes VerifyBlock
    without error, because VerifyTxWithView skips script and signature
    verification. -/
theorem c2_verifyBlock_accepts_unsigned :
    verifyBlock [c2Tx] c2Set = none ∧
    (∀ ed : Bytes → Bytes → Bytes → Bool,
       verifyForMempool ed c2Tx c2Set emptyMempool = false) :=
  ⟨by decide, fun ed => rfl⟩

/-- C4 counterexample: a tick with the non-empty snapshot (["a"], 10 bytes)
    and elapsed time equal to BlockInterval does not build a block, though
    the claim requires building whenever elapsed ≥ BlockInterval. -/
theorem c4_counterexample :
    minerTickBuilds ⟨["a"], 10⟩ 5000 = false ∧
    5000 ≥ blockIntervalMs ∧
    (MempoolSnapshot.mk ["a"] 10).txids ≠ [] := by
  decide

/-- C4 amended: on a tick with a non-empty snapshot, the miner proceeds to
    build and commit if and only if the snapshot size reaches
    MAX_BLOCK_BYTES/2; the elapsed time since the interval anchor is never
    consulted. -/
theorem c4_miner_gate (snap : MempoolSnapshot) (elapsedMs : Nat)
    (hne : snap.txids ≠ []) :
    minerTickBuilds snap elapsedMs = true ↔ maxBlockSizeBytes / 2 ≤ snap.size := by
  unfold minerTickBuilds
  have hlen : ¬ snap.txids.length = 0 := by
    intro h
    exact hne (List.length_eq_zero.mp h)
  simp only [hlen, if_false]
  by_cases hs : snap.size < maxBlockSizeBytes / 2
  · simp [hs, Nat.not_le.mpr hs]
  · simp [hs, Nat.not_lt.mp hs]

/-- Witness for C4 amended at a concrete snapshot of exactly half the block
    limit. -/
theorem c4_witness :
    minerTickBuilds ⟨["a"], 2097152⟩ 0 = true ↔
      maxBlockSizeBytes / 2 ≤ 2097152 :=
  c4_miner_gate ⟨["a"], 2097152⟩ 0 (by decide)

theorem sizeSum_nil (m : Mempool) : sizeSum m [] = 0 := rfl

theorem sizeSum_cons (m : Mempool) (id : String) (l : List String) :
    sizeSum m (id :: l) = (alookup m.txSize id).getD 0 + sizeSum m l := by
  simp [sizeSum]

theorem snapshotAux_cons (m : Mempool) (maxBytes : Nat) (id : String)
    (rest : List String) (size : Nat) :
    snapshotAux m maxBytes (id :: rest) size =
      if (alookup m.txs id).isNone then snapshotAux m maxBytes rest size
      else if size + (alookup m.txSize id).getD 0 > maxBytes then ([], size)
      else (id :: (snapshotAux m maxBytes rest
                     (size + (alookup m.txSize id).getD 0)).1,
            (snapshotAux m maxBytes rest
               (size + (alookup m.txSize id).getD 0)).2) := rfl

theorem snapshotAux_spec (m : Mempool) (maxBytes : Nat) :
    ∀ (ord : List String) (size : Nat), size ≤ maxBytes →
    (snapshotAux m maxBytes ord size).1 =
      (ord.filter (fun id => (alookup m.txs id).isSome)).take
        (snapshotAux m maxBytes ord size).1.length ∧
    (snapshotAux m maxBytes ord size).2 =
      size + sizeSum m (snapshotAux m maxBytes ord size).1 ∧
    (snapshotAux m maxBytes ord size).2 ≤ maxBytes ∧
    (∀ k, (snapshotAux m maxBytes ord size).1.length < k →
       k ≤ (ord.filter (fun id => (alookup m.txs id).isSome)).length →
       size + sizeSum m ((ord.filter (fun id => (alookup m.txs id).isSome)).take k)
         > maxBytes)
  | [], size, hsz => by
    refine ⟨rfl, by simp [snapshotAux, sizeSum_nil], by simpa [snapshotAux], ?_⟩
    intro k h1 h2
    simp only [snapshotAux, List.filter_nil, List.length_nil] at h1 h2
    omega
  | id :: rest, size, hsz => by
    by_cases hp : (alookup m.txs id).isSome
    · have hnn : (alookup m.txs id).isNone = false := by
        cases h : alookup m.txs id <;> simp_all
      have hfil : (id :: rest).filter (fun i => (alookup m.txs i).isSome) =
          id :: rest.filter (fun i => (alookup m.txs i).isSome) := by
        simp [List.filter_cons, hp]
      by_cases hbig : size + (alookup m.txSize id).getD 0 > maxBytes
      · have hres : snapshotAux m maxBytes (id :: rest) size = ([], size) := by
          rw [snapshotAux_cons, hnn]
          simp [hbig]
        rw [hres, hfil]
        refine ⟨rfl, by simp [sizeSum_nil], hsz, ?_⟩
        intro k h1 h2
        cases k with
        | zero => omega
        | succ k2 =>
          rw [List.take_succ_cons, sizeSum_cons]
          omega
      · have hres : snapshotAux m maxBytes (id :: rest) size =
            (id :: (snapshotAux m maxBytes rest
                      (size + (alookup m.txSize id).getD 0)).1,
             (snapshotAux m maxBytes rest
                (size + (alookup m.txSize id).getD 0)).2) := by
          rw [snapshotAux_cons, hnn]
          simp [hbig]
        have ih := snapshotAux_spec m maxBytes rest
          (size + (alookup m.txSize id).getD 0) (by omega)
        rw [hres, hfil]
        refine ⟨?_, ?_, ih.2.2.1, ?_⟩
        · simp only [List.length_cons, List.take_succ_cons]
          exact congrArg (List.cons id) ih.1
        · rw [sizeSum_cons]
          have h2 := ih.2.1
          omega
        · intro k h1 h2
          cases k with
          | zero => omega
          | succ k2 =>
            rw [List.take_succ_cons, sizeSum_cons]
            have h4 := ih.2.2.2 k2 (by simpa using h1) (by simpa using h2)
            omega
    · have hnn : (alookup m.txs id).isNone = true := by
        cases h : alookup m.txs id <;> simp_all
      have hres : snapshotAux m maxBytes (id :: rest) size =
          snapshotAux m maxBytes rest size := by
        rw [snapshotAux_cons, hnn]
        simp
      have hfil : (id :: rest).filter (fun i => (alookup m.txs i).isSome) =
          rest.filter (fun i => (alookup m.txs i).isSome) := by
        simp only [List.filter_cons]
        simp [hp]
      rw [hres, hfil]
      exact snapshotAux_spec m maxBytes rest size hsz

/-- C8: for every mempool state and bound, SnapshotUntilSize returns the
    longest prefix of the insertion order restricted to txids still present
    in txs whose cumulative recorded size stays within the bound, together
    with that cumulative size: the result is a prefix of the filtered
    order, its size is the exact sum of the recorded sizes, it is within
    the bound, and every strictly longer prefix exceeds the bound. -/
theorem c8_snapshot_longest_fit (m : Mempool) (maxBytes : Nat) :
    (m.snapshotUntilSize maxBytes).txids =
      (presentOrder m).take (m.snapshotUntilSize maxBytes).txids.length ∧
    (m.snapshotUntilSize maxBytes).size =
      sizeSum m (m.snapshotUntilSize maxBytes).txids ∧
    (m.snapshotUntilSize maxBytes).size ≤ maxBytes ∧
    (∀ k, (m.snapshotUntilSize maxBytes).txids.length < k →
       k ≤ (presentOrder m).length →
       sizeSum m ((presentOrder m).take k) > maxBytes) := by
  have h := snapshotAux_spec m maxBytes m.order 0 (Nat.zero_le _)
  have htx : (m.snapshotUntilSize maxBytes).txids =
      (snapshotAux m maxBytes m.order 0).1 := rfl
  have hsz : (m.snapshotUntilSize maxBytes).size =
      (snapshotAux m maxBytes m.order 0).2 := rfl
  have hpo : presentOrder m =
      m.order.filter (fun id => (alookup m.txs id).isSome) := rfl
  rw [htx, hsz, hpo]
  refine ⟨h.1, ?_, h.2.2.1, ?_⟩
  · have h2 := h.2.1
    omega
  · intro k h1 h2
    have h4 := h.2.2.2 k h1 h2
    omega

/-- Witness for C8 at a concrete mempool (order [a, x, b, c] with x stale
    and c never sized into txs; sizes a=3, b=2; bound 4): the snapshot is
    ([a], 3) and the next-longer prefix [a, b] already weighs 5 > 4. -/
theorem c8_witness :
    (c8Mem.snapshotUntilSize 4).txids = ["a"] ∧
    (c8Mem.snapshotUntilSize 4).size = 3 ∧
    sizeSum c8Mem ((presentOrder c8Mem).take 2) > 4 :=
  ⟨by decide, by decide,
   (c8_snapshot_longest_fit c8Mem 4).2.2.2 2 (by decide) (by decide)⟩

theorem hexDigitVal_lt (c : Char) (d : Nat) (h : hexDigitVal c = some d) :
    d < 16 := by
  unfold hexDigitVal at h
  by_cases h1 : 48 ≤ c.toNat ∧ c.toNat ≤ 57
  · simp [h1] at h; omega
  · by_cases h2 : 97 ≤ c.toNat ∧ c.toNat ≤ 102
    · simp [h1, h2] at h; omega
    · by_cases h3 : 65 ≤ c.toNat ∧ c.toNat ≤ 70
      · simp [h1, h2, h3] at h; omega
      · simp [h1, h2, h3] at h

theorem hexDigitVal_hexCharOfNat : ∀ d, d < 16 →
    hexDigitVal (hexCharOfNat d) = some d := by decide

theorem hexDecodeAux_lt : ∀ (cs : List Char), ∀ b ∈ (hexDecodeAux cs).1, b < 256
  | [] => by simp [hexDecodeAux]
  | [c] => by simp [hexDecodeAux]
  | c1 :: c2 :: rest => by
    intro b hb
    simp only [hexDecodeAux] at hb
    cases h1 : hexDigitVal c1 with
    | none => simp [h1] at hb
    | some hi =>
      cases h2 : hexDigitVal c2 with
      | none => simp [h1, h2] at hb
      | some lo =>
        simp only [h1, h2] at hb
        rcases List.mem_cons.mp hb with h | h
        · have hh1 := hexDigitVal_lt c1 hi h1
          have hh2 := hexDigitVal_lt c2 lo h2
          omega
        · exact hexDecodeAux_lt rest b h

theorem hexDecode_lt (s : String) (bs : Bytes) (h : hexDecode s = some bs) :
    ∀ b ∈ bs, b < 256 := by
  unfold hexDecode hexDecodeP at h
  by_cases h2 : (hexDecodeAux s.data).2 <;> simp [h2] at h
  exact h ▸ hexDecodeAux_lt s.data

theorem hexDecodeP_hexEncode (bs : Bytes) (hlt : ∀ b ∈ bs, b < 256) :
    hexDecodeP (hexEncode bs) = (bs, true) := by
  have key : ∀ l : Bytes, (∀ b ∈ l, b < 256) →
      hexDecodeAux (l.foldr (fun b acc =>
        hexCharOfNat (b % 256 / 16) :: hexCharOfNat (b % 16) :: acc) []) =
        (l, true) := by
    intro l
    induction l with
    | nil => intro _; rfl
    | cons b rest ih =>
      intro hb
      have hblt : b < 256 := hb b (List.mem_cons_self _ _)
      have h1 : hexDigitVal (hexCharOfNat (b % 256 / 16)) = some (b % 256 / 16) :=
        hexDigitVal_hexCharOfNat _ (by omega)
      have h2 : hexDigitVal (hexCharOfNat (b % 16)) = some (b % 16) :=
        hexDigitVal_hexCharOfNat _ (by omega)
      simp only [List.foldr_cons, hexDecodeAux, h1, h2,
        ih (fun x hx => hb x (List.mem_cons_of_mem _ hx))]
      have : 16 * (b % 256 / 16) + b % 16 = b := by omega
      simp [this]
  exact key bs hlt

theorem hexDecode_eq_P (s : String) (bs : Bytes) (h : hexDecode s = some bs) :
    hexDecodeP s = (bs, true) := by
  unfold hexDecode at h
  by_cases h2 : (hexDecodeP s).2 <;> simp [h2] at h
  exact Prod.ext (by simp [h]) (by simp [h2])

theorem modifyIdx_length {α : Type} (f : α → α) :
    ∀ (l : List α) (i : Nat), (modifyIdx f l i).length = l.length
  | [], _ => rfl
  | _ :: rest, 0 => by simp [modifyIdx]
  | _ :: rest, n + 1 => by simp [modifyIdx, modifyIdx_length f rest n]

theorem mapSer_modifyIdx (s1 s2 : String) (h : hexDecodeP s1 = hexDecodeP s2) :
    ∀ (l : List VIN) (i : Nat),
    (modifyIdx (fun v => { v with scriptSig := { v.scriptSig with hex := s1 } })
        l i).map serializeVin =
    (modifyIdx (fun v => { v with scriptSig := { v.scriptSig with hex := s2 } })
        l i).map serializeVin
  | [], _ => rfl
  | v :: rest, 0 => by
    simp only [modifyIdx, List.map_cons]
    have : serializeVin { v with scriptSig := { v.scriptSig with hex := s1 } } =
        serializeVin { v with scriptSig := { v.scriptSig with hex := s2 } } := by
      simp [serializeVin, h]
    rw [this]
  | v :: rest, n + 1 => by
    simp only [modifyIdx, List.map_cons]
    rw [mapSer_modifyIdx s1 s2 h rest n]

/-- Clearing a scriptSig, as ShallowCopyEmptySigs does per input. -/
theorem enumFrom_map_cleared (s : String) :
    ∀ (l : List VIN) (n j : Nat), j < n →
    (l.enumFrom n).map (fun e => VIN.mk e.2.txid e.2.vout
        ⟨"", if e.1 = j then s else ""⟩) =
      l.map (fun v => VIN.mk v.txid v.vout ⟨"", ""⟩)
  | [], _, _, _ => rfl
  | v :: rest, n, j, hj => by
    simp only [List.enumFrom_cons, List.map_cons]
    have hne : ¬ n = j := by omega
    rw [if_neg hne, enumFrom_map_cleared s rest (n + 1) j (by omega)]

theorem modify_cleared_eq_enum (s : String) :
    ∀ (l : List VIN) (n i : Nat),
    modifyIdx (fun v => { v with scriptSig := { v.scriptSig with hex := s } })
      (l.map (fun v => VIN.mk v.txid v.vout ⟨"", ""⟩)) i =
    (l.enumFrom n).map (fun e => VIN.mk e.2.txid e.2.vout
      ⟨"", if e.1 = n + i then s else ""⟩)
  | [], _, _ => rfl
  | v :: rest, n, 0 => by
    simp only [List.map_cons, List.enumFrom_cons, modifyIdx]
    rw [if_pos (by omega : n = n + 0),
      enumFrom_map_cleared s rest (n + 1) (n + 0) (by omega)]
  | v :: rest, n, i + 1 => by
    simp only [List.map_cons, List.enumFrom_cons, modifyIdx]
    rw [if_neg (by omega : ¬ n = n + (i + 1))]
    have := modify_cleared_eq_enum s rest (n + 1) i
    rw [this]
    have harith : (n + 1) + i = n + (i + 1) := by omega
    rw [harith]

/-- C5 counterexample: for a transaction with version 1, the sighash the
    code computes for input 0 differs from the double SHA-256 of the
    serialized copy that preserves the version and locktime of t, because
    ShallowCopyEmptySigs rebuilds the transaction without copying Version
    and LockTime. -/
theorem c5_counterexample :
    sighashForInput c5Tx 0 c5Spk ≠
      dsha256 (serialize (specSighashCopy c5Tx 0 c5Spk
        c5Tx.version c5Tx.lockTime)) := by decide

/-- C5 amended: the sighash signed by SignEd25519 and verified by
    VerifyForMempool for input i is the double SHA-256 of the canonical
    serialization of the copy of t whose scriptSigs are all empty except
    input i carrying the previous scriptPubKey hex, and whose version and
    locktime are zero (not preserved from t).  The second conjunct shows
    the verifier side, which re-encodes the decoded scriptPubKey bytes,
    hashes the same preimage. -/
theorem c5_sighash_zeroed_copy (t : Transaction) (i : Nat) (spkHex : String)
    (bs : Bytes) (hdec : hexDecode spkHex = some bs) :
    sighashForInput t i spkHex =
      dsha256 (serialize (specSighashCopy t i spkHex 0 0)) ∧
    sighashForInput t i (hexEncode bs) = sighashForInput t i spkHex := by
  constructor
  · unfold sighashForInput shallowCopyEmptySigs specSighashCopy
    have hv := modify_cleared_eq_enum spkHex t.vin 0 i
    simp only [Nat.zero_add] at hv
    simp only
    rw [hv]
    rfl
  · have hd1 := hexDecode_eq_P spkHex bs hdec
    have hd2 := hexDecodeP_hexEncode bs (hexDecode_lt spkHex bs hdec)
    have hP : hexDecodeP (hexEncode bs) = hexDecodeP spkHex := by rw [hd1, hd2]
    unfold sighashForInput serialize
    simp only
    rw [mapSer_modifyIdx _ _ hP, modifyIdx_length, modifyIdx_length]

/-- Witness for C5 amended at a concrete transaction and scriptPubKey hex
    (bytes 00 ff 10). -/
theorem c5_witness :
    sighashForInput c5Tx 0 c5Spk =
      dsha256 (serialize (specSighashCopy c5Tx 0 c5Spk 0 0)) ∧
    sighashForInput c5Tx 0 (hexEncode [0, 255, 16]) =
      sighashForInput c5Tx 0 c5Spk :=
  ⟨(c5_sighash_zeroed_copy c5Tx 0 c5Spk [0, 255, 16] (by decide)).1,
   (c5_sighash_zeroed_copy c5Tx 0 c5Spk [0, 255, 16] (by decide)).2⟩

theorem wsumFrom_nil (acc : Int) : wsumFrom acc [] = acc := rfl

theorem wsumFrom_cons (acc : Int) (c : UTXO) (l : List UTXO) :
    wsumFrom acc (c :: l) = wsumFrom (wrap64 (acc + c.vout.value)) l := rfl

theorem selectAux_cons (amount : Int) (c : UTXO) (rest : List UTXO) (acc : Int) :
    selectAux amount (c :: rest) acc =
      if wrap64 (acc + c.vout.value) ≥ amount then
        ([c], wrap64 (acc + c.vout.value))
      else ((c :: (selectAux amount rest (wrap64 (acc + c.vout.value))).1),
            (selectAux amount rest (wrap64 (acc + c.vout.value))).2) := rfl

theorem selectAux_spec (amount : Int) :
    ∀ (l : List UTXO) (acc : Int),
    (selectAux amount l acc).1 = l.take (selectAux amount l acc).1.length ∧
    (selectAux amount l acc).2 = wsumFrom acc (selectAux amount l acc).1 ∧
    ((selectAux amount l acc).2 ≥ amount ∨ (selectAux amount l acc).1 = l) ∧
    (∀ j, 1 ≤ j → j < (selectAux amount l acc).1.length →
       wsumFrom acc (l.take j) < amount) ∧
    (l ≠ [] → (selectAux amount l acc).1 ≠ [])
  | [], acc => by
    refine ⟨rfl, rfl, Or.inr rfl, ?_, fun h => absurd rfl h⟩
    intro j h1 h2
    simp [selectAux] at h2
  | c :: rest, acc => by
    rw [selectAux_cons]
    by_cases hge : wrap64 (acc + c.vout.value) ≥ amount
    · rw [if_pos hge]
      refine ⟨rfl, rfl, Or.inl hge, ?_, fun _ => by simp⟩
      intro j h1 h2
      simp at h2
      omega
    · rw [if_neg hge]
      have ih := selectAux_spec amount rest (wrap64 (acc + c.vout.value))
      refine ⟨?_, ?_, ?_, ?_, fun _ => by simp⟩
      · simp only [List.length_cons, List.take_succ_cons]
        exact congrArg (List.cons c) ih.1
      · rw [wsumFrom_cons]
        exact ih.2.1
      · rcases ih.2.2.1 with h | h
        · exact Or.inl h
        · exact Or.inr (by rw [h])
      · intro j h1 h2
        simp only [List.length_cons] at h2
        cases j with
        | zero => omega
        | succ j2 =>
          rw [List.take_succ_cons, wsumFrom_cons]
          cases Nat.eq_zero_or_pos j2 with
          | inl hz =>
            subst hz
            simpa [wsumFrom_nil] using Int.not_le.mp hge
          | inr hpos =>
            exact ih.2.2.2.1 j2 hpos (by omega)

theorem signVinsAux_preserves (signFn : Bytes → Bytes) (pub : Bytes)
    (t : Transaction) (us : UTXOSet) (m : Mempool) :
    ∀ (l : List VIN) (i : Nat) (vs : List VIN),
    signVinsAux signFn pub t us m l i = .ok vs →
    vs.map (fun v => (v.txid, v.vout)) = l.map (fun v => (v.txid, v.vout))
  | [], i, vs => by
    intro h
    simp only [signVinsAux] at h
    cases h
    rfl
  | vin :: rest, i, vs => by
    intro h
    simp only [signVinsAux] at h
    cases hr : resolvePrevOut us m vin with
    | none => rw [hr] at h; cases h
    | some prevOut =>
      rw [hr] at h
      simp only at h
      cases hrec : signVinsAux signFn pub t us m rest (i + 1) with
      | error e => rw [hrec] at h; cases h
      | ok vs2 =>
        rw [hrec] at h
        cases h
        simp only [List.map_cons]
        rw [signVinsAux_preserves signFn pub t us m rest (i + 1) vs2 hrec]

theorem signEd25519_preserves (signFn : Bytes → Bytes) (pub : Bytes)
    (t : Transaction) (us : UTXOSet) (m : Mempool) (t2 : Transaction)
    (h : signEd25519 signFn pub t us m = .ok t2) :
    t2.vin.map (fun v => (v.txid, v.vout)) =
      t.vin.map (fun v => (v.txid, v.vout)) ∧
    t2.vout = t.vout := by
  unfold signEd25519 at h
  by_cases hz : t.vin.length = 0
  · simp [hz] at h
  · rw [if_neg hz] at h
    cases hrec : signVinsAux signFn pub t us m t.vin 0 with
    | error e => rw [hrec] at h; cases h
    | ok vins =>
      rw [hrec] at h
      simp only at h
      cases h
      exact ⟨signVinsAux_preserves signFn pub t us m t.vin 0 vins hrec, rfl⟩

/-- C7 amended: CreateTransaction fails with the no-spendable-outputs error
    when the wallet has no spendable UTXOs; otherwise it greedily selects
    the shortest prefix of the spendable list whose running total -
    accumulated with int64 wrap, as the code does - reaches the amount,
    failing with the insufficient-funds error when no prefix reaches it; on
    success the transaction has one input per selected UTXO, in order, and
    its outputs are the payment at index 0 plus, exactly when the selected
    total exceeds the amount, a change output of total minus amount at
    index 1. -/
theorem c7_create_greedy (signFn : Bytes → Bytes) (pub : Bytes)
    (fromAddr toAddr : String) (amount : Int) (us : UTXOSet) (m : Mempool)
    (w : Wallet) :
    (w.getSpendableUTXOs m = [] →
       createTransaction signFn pub fromAddr toAddr amount us m w =
         .error "no spendable outputs") ∧
    (w.getSpendableUTXOs m ≠ [] →
       (∀ j, 1 ≤ j → j ≤ (w.getSpendableUTXOs m).length →
          wsumValues ((w.getSpendableUTXOs m).take j) < amount) →
       createTransaction signFn pub fromAddr toAddr amount us m w =
         .error "insufficient funds") ∧
    (∀ tx, createTransaction signFn pub fromAddr toAddr amount us m w = .ok tx →
       ∃ k, 1 ≤ k ∧ k ≤ (w.getSpendableUTXOs m).length ∧
         amount ≤ wsumValues ((w.getSpendableUTXOs m).take k) ∧
         (∀ j, 1 ≤ j → j < k →
            wsumValues ((w.getSpendableUTXOs m).take j) < amount) ∧
         tx.vin.map (fun v => (v.txid, v.vout)) =
           ((w.getSpendableUTXOs m).take k).map (fun u => (u.txid, u.index)) ∧
         tx.vout =
           (if wsumValues ((w.getSpendableUTXOs m).take k) > amount then
              [VOUT.mk amount 0 (makeP2PKHScriptPubKey toAddr),
               VOUT.mk (wrap64 (wsumValues ((w.getSpendableUTXOs m).take k) - amount))
                 1 (makeP2PKHScriptPubKey fromAddr)]
            else [VOUT.mk amount 0 (makeP2PKHScriptPubKey toAddr)])) := by
  refine ⟨?_, ?_, ?_⟩
  · intro h
    unfold createTransaction
    simp [h]
  · intro hne hall
    unfold createTransaction
    have hlen : ¬ (w.getSpendableUTXOs m).length = 0 := by
      simpa [List.length_eq_zero] using hne
    rw [if_neg hlen]
    have hs := selectAux_spec amount (w.getSpendableUTXOs m) 0
    have hlt : (selectAux amount (w.getSpendableUTXOs m) 0).2 < amount := by
      rcases hs.2.2.1 with hge | hfull
      · exfalso
        have hk1 : (selectAux amount (w.getSpendableUTXOs m) 0).1 ≠ [] :=
          hs.2.2.2.2 hne
        have hkpos : 1 ≤ (selectAux amount (w.getSpendableUTXOs m) 0).1.length :=
          Nat.one_le_iff_ne_zero.mpr (by simpa [List.length_eq_zero] using hk1)
        have hkle : (selectAux amount (w.getSpendableUTXOs m) 0).1.length ≤
            (w.getSpendableUTXOs m).length := by
          have := congrArg List.length hs.1
          rw [List.length_take] at this
          omega
        have hcontra := hall _ hkpos hkle
        rw [wsumValues] at hcontra
        rw [← hs.1, ← hs.2.1] at hcontra
        omega
      · have hlenpos : 1 ≤ (w.getSpendableUTXOs m).length :=
          Nat.one_le_iff_ne_zero.mpr hlen
        have hcontra := hall (w.getSpendableUTXOs m).length hlenpos (le_refl _)
        rw [List.take_length] at hcontra
        rw [hs.2.1, hfull]
        exact hcontra
    rw [if_pos hlt]
  · intro tx htx
    unfold createTransaction at htx
    by_cases hlen : (w.getSpendableUTXOs m).length = 0
    · rw [if_pos hlen] at htx
      cases htx
    · rw [if_neg hlen] at htx
      by_cases hins : (selectAux amount (w.getSpendableUTXOs m) 0).2 < amount
      · rw [if_pos hins] at htx
        cases htx
      · rw [if_neg hins] at htx
        have hs := selectAux_spec amount (w.getSpendableUTXOs m) 0
        have hpres := signEd25519_preserves _ _ _ _ _ _ htx
        have hk1 : 1 ≤ (selectAux amount (w.getSpendableUTXOs m) 0).1.length := by
          have hk0 : (selectAux amount (w.getSpendableUTXOs m) 0).1 ≠ [] :=
            hs.2.2.2.2 (by simpa [List.length_eq_zero] using hlen)
          exact Nat.one_le_iff_ne_zero.mpr (by simpa [List.length_eq_zero] using hk0)
        have hkle : (selectAux amount (w.getSpendableUTXOs m) 0).1.length ≤
            (w.getSpendableUTXOs m).length := by
          have := congrArg List.length hs.1
          rw [List.length_take] at this
          omega
        have htake : ((w.getSpendableUTXOs m).take
            (selectAux amount (w.getSpendableUTXOs m) 0).1.length) =
            (selectAux amount (w.getSpendableUTXOs m) 0).1 := hs.1.symm
        have hval : wsumValues ((w.getSpendableUTXOs m).take
            (selectAux amount (w.getSpendableUTXOs m) 0).1.length) =
            (selectAux amount (w.getSpendableUTXOs m) 0).2 := by
          rw [htake, wsumValues, ← hs.2.1]
        refine ⟨(selectAux amount (w.getSpendableUTXOs m) 0).1.length,
          hk1, hkle, ?_, ?_, ?_, ?_⟩
        · rw [hval]
          omega
        · intro j hj1 hj2
          have := hs.2.2.2.1 j hj1 hj2
          rw [wsumValues]
          exact this
        · rw [hpres.1, htake, List.map_map]
          rfl
        · rw [hpres.2, hval]

/-- C7 counterexample: a wallet holding values 2 and 2^63 - 1 has exact
    spendable total 2^63 + 1, at least the requested amount 2^63 - 1, yet
    CreateTransaction fails with the insufficient-funds error because the
    greedy running total is accumulated in int64 and wraps negative. -/
theorem c7_counterexample :
    createTransaction cSign cPub cAddr "bb" (2 ^ 63 - 1) emptyUTXOSet
        emptyMempool c7Wallet = .error "insufficient funds" ∧
    ((c7Wallet.getSpendableUTXOs emptyMempool).map (fun u => u.vout.value)).sum
      ≥ 2 ^ 63 - 1 := by decide

/-- Witness for C7 amended: a wallet with one UTXO of value 5 and amount 3
    yields a transaction matching the greedy characterization. -/
theorem c7_witness :
    ∃ k, 1 ≤ k ∧ k ≤ (c7SmallWallet.getSpendableUTXOs emptyMempool).length ∧
      3 ≤ wsumValues ((c7SmallWallet.getSpendableUTXOs emptyMempool).take k) ∧
      (∀ j, 1 ≤ j → j < k →
         wsumValues ((c7SmallWallet.getSpendableUTXOs emptyMempool).take j) < 3) ∧
      c7tx.vin.map (fun v => (v.txid, v.vout)) =
        ((c7SmallWallet.getSpendableUTXOs emptyMempool).take k).map
          (fun u => (u.txid, u.index)) ∧
      c7tx.vout =
        (if wsumValues ((c7SmallWallet.getSpendableUTXOs emptyMempool).take k) > 3
         then [VOUT.mk 3 0 (makeP2PKHScriptPubKey "bb"),
               VOUT.mk (wrap64 (wsumValues
                   ((c7SmallWallet.getSpendableUTXOs emptyMempool).take k) - 3))
                 1 (makeP2PKHScriptPubKey cAddr)]
         else [VOUT.mk 3 0 (makeP2PKHScriptPubKey "bb")]) :=
  (c7_create_greedy cSign cPub cAddr "bb" 3 c7SmallSet emptyMempool
    c7SmallWallet).2.2 c7tx (by decide)

theorem alookup_eq_none_of_not_mem {κ ν : Type} [DecidableEq κ]
    (l : List (κ × ν)) (k : κ) (h : k ∉ l.map (fun e => e.1)) :
    alookup l k = none := by
  induction l with
  | nil => rfl
  | cons e rest ih =>
    simp only [List.map_cons, List.mem_cons] at h
    push_neg at h
    simp only [alookup]
    rw [if_neg (fun hh => h.1 hh.symm)]
    exact ih h.2

theorem alookup_of_mem_nodup {κ ν : Type} [DecidableEq κ]
    (l : List (κ × ν)) (k : κ) (v : ν) (hmem : (k, v) ∈ l)
    (hnd : (l.map (fun e => e.1)).Nodup) :
    alookup l k = some v := by
  induction l with
  | nil => cases hmem
  | cons e rest ih =>
    simp only [List.map_cons, List.nodup_cons] at hnd
    rcases List.mem_cons.mp hmem with h | h
    · subst h
      simp [alookup]
    · have hk : ¬ e.1 = k := by
        intro hh
        exact hnd.1 (hh ▸ List.mem_map.mpr ⟨(k, v), h, rfl⟩)
      simp only [alookup, hk, if_false]
      exact ih h hnd.2

theorem put_get (u : UTXOSet) (t : String) (v : Int) (o : VOUT)
    (h : (u.put t v o).2 = none) (t2 : String) (v2 : Int) :
    (u.put t v o).1.get t2 v2 =
      if (t2, v2) = (t, v) then some ⟨t, v, o⟩ else u.get t2 v2 := by
  unfold UTXOSet.put at h ⊢
  cases hk : (alookup u.utxos (t, v)).isSome with
  | true => rw [hk] at h; simp at h
  | false =>
    rw [if_neg Bool.false_ne_true]
    unfold UTXOSet.get
    simp only
    rw [alookup_aset]

theorem delete_get (u : UTXOSet) (t : String) (v : Int)
    (h : (u.delete t v).2 = none) (t2 : String) (v2 : Int) :
    (u.delete t v).1.get t2 v2 =
      if (t2, v2) = (t, v) then none else u.get t2 v2 := by
  unfold UTXOSet.delete at h ⊢
  cases hk : alookup u.utxos (t, v) with
  | none => rw [hk] at h; simp at h
  | some utxo =>
    dsimp only
    unfold UTXOSet.get
    dsimp only
    rw [alookup_aerase]

theorem commitVins_get : ∀ (l : List VIN) (u : UTXOSet),
    (commitVinsAux u l).2 = none →
    ∀ t2 v2, (commitVinsAux u l).1.get t2 v2 =
      if (t2, v2) ∈ (l.filter (fun v => v.txid ≠ "")).map (fun v => (v.txid, v.vout))
      then none else u.get t2 v2
  | [], u => by
    intro _ t2 v2
    simp [commitVinsAux]
  | vin :: rest, u => by
    intro hok t2 v2
    by_cases hc : vin.txid = ""
    · have hred : commitVinsAux u (vin :: rest) = commitVinsAux u rest := by
        simp [commitVinsAux, hc]
      have hfil : ((vin :: rest).filter (fun v => v.txid ≠ "")) =
          rest.filter (fun v => v.txid ≠ "") := by
        simp [List.filter_cons, hc]
      rw [hred] at hok ⊢
      rw [commitVins_get rest u hok t2 v2, hfil]
    · rcases hd : u.delete vin.txid vin.vout with ⟨u2, e⟩
      cases e with
      | some err =>
        exfalso
        have hbad : (commitVinsAux u (vin :: rest)).2 = some err := by
          simp [commitVinsAux, hc, hd]
        rw [hok] at hbad
        cases hbad
      | none =>
        have hred : commitVinsAux u (vin :: rest) = commitVinsAux u2 rest := by
          simp [commitVinsAux, hc, hd]
        rw [hred] at hok ⊢
        rw [commitVins_get rest u2 hok t2 v2]
        have hu2 : ∀ a b, u2.get a b =
            if (a, b) = (vin.txid, vin.vout) then none else u.get a b := by
          intro a b
          have hdel := delete_get u vin.txid vin.vout (by rw [hd]) a b
          rw [hd] at hdel
          exact hdel
        rw [hu2]
        have hfil : ((vin :: rest).filter (fun v => v.txid ≠ "")).map
            (fun v => (v.txid, v.vout)) =
            (vin.txid, vin.vout) ::
              (rest.filter (fun v => v.txid ≠ "")).map (fun v => (v.txid, v.vout)) := by
          simp [List.filter_cons, hc]
        rw [hfil]
        by_cases hm : (t2, v2) ∈
            (rest.filter (fun v => v.txid ≠ "")).map (fun v => (v.txid, v.vout))
        · rw [if_pos hm, if_pos (List.mem_cons_of_mem _ hm)]
        · rw [if_neg hm]
          by_cases h1 : (t2, v2) = (vin.txid, vin.vout)
          · rw [if_pos h1, if_pos (List.mem_cons.mpr (Or.inl h1))]
          · rw [if_neg h1, if_neg ?hnc]
            case hnc =>
              intro hh
              rcases List.mem_cons.mp hh with h | h
              · exact h1 h
              · exact hm h

theorem commitVouts_get : ∀ (l : List (Nat × VOUT)) (txid : String) (u : UTXOSet),
    (commitVoutsAux txid u l).2 = none →
    (l.map (fun e => e.1)).Nodup →
    ∀ t2 v2, (commitVoutsAux txid u l).1.get t2 v2 =
      (alookup (l.map (fun e =>
          ((txid, Int.ofNat e.1), (⟨txid, Int.ofNat e.1, e.2⟩ : UTXO)))) (t2, v2)).or
        (u.get t2 v2)
  | [], txid, u => by
    intro _ _ t2 v2
    simp [commitVoutsAux, alookup]
  | (i, out) :: rest, txid, u => by
    intro hok hnd t2 v2
    have h0 : commitVoutsAux txid u ((i, out) :: rest) =
        (match u.put txid (Int.ofNat i) out with
         | (u2, some e) => (u2, some e)
         | (u2, none) => commitVoutsAux txid u2 rest) := rfl
    rcases hp : u.put txid (Int.ofNat i) out with ⟨u2, e⟩
    cases e with
    | some err =>
      exfalso
      have hbad : (commitVoutsAux txid u ((i, out) :: rest)).2 = some err := by
        rw [h0, hp]
      rw [hok] at hbad
      cases hbad
    | none =>
      have hred : commitVoutsAux txid u ((i, out) :: rest) =
          commitVoutsAux txid u2 rest := by
        rw [h0, hp]
      rw [hred] at hok ⊢
      simp only [List.map_cons, List.nodup_cons] at hnd
      rw [commitVouts_get rest txid u2 hok hnd.2 t2 v2]
      have hu2 : ∀ a b, u2.get a b =
          if (a, b) = (txid, Int.ofNat i) then some ⟨txid, Int.ofNat i, out⟩
          else u.get a b := by
        intro a b
        have hput := put_get u txid (Int.ofNat i) out (by rw [hp]) a b
        rw [hp] at hput
        exact hput
      rw [hu2]
      simp only [List.map_cons, alookup]
      by_cases h1 : (t2, v2) = (txid, Int.ofNat i)
      · rw [if_pos h1, if_pos h1.symm]
        have hnone : alookup (rest.map (fun e =>
            ((txid, Int.ofNat e.1), (⟨txid, Int.ofNat e.1, e.2⟩ : UTXO)))) (t2, v2) =
            none := by
          apply alookup_eq_none_of_not_mem
          rw [h1, List.map_map]
          intro hmem
          rcases List.mem_map.mp hmem with ⟨q, hq, hqe⟩
          simp only [Function.comp, Prod.mk.injEq] at hqe
          have hqi : q.1 = i := Int.ofNat.inj hqe.2
          exact hnd.1 (hqi ▸ List.mem_map.mpr ⟨q, hq, rfl⟩)
        rw [hnone]
        simp
      · rw [if_neg h1, if_neg (fun hh => h1 hh.symm)]

theorem enum_fst_nodup (l : List VOUT) : (l.enum.map (fun e => e.1)).Nodup := by
  have h : (l.enum.map (fun e => e.1)) = List.range l.length :=
    List.enum_map_fst l
  rw [h]
  exact List.nodup_range _

theorem blockOutKeys_cons (tx : Transaction) (rest : List Transaction) :
    blockOutKeys (tx :: rest) =
      (txPutAssoc tx).map (fun e => e.1) ++ blockOutKeys rest := by
  simp [blockOutKeys]

theorem blockInKeys_cons (tx : Transaction) (rest : List Transaction) :
    blockInKeys (tx :: rest) = txVinKeys tx ++ blockInKeys rest := by
  simp [blockInKeys]

theorem commitTxs_cons_ok (tx : Transaction) (rest : List Transaction)
    (u : UTXOSet) (h : (commitTxsAux u (tx :: rest)).2 = none) :
    (commitVinsAux u tx.vin).2 = none ∧
    (commitVoutsAux tx.txid (commitVinsAux u tx.vin).1 tx.vout.enum).2 = none ∧
    commitTxsAux u (tx :: rest) =
      commitTxsAux (commitVoutsAux tx.txid (commitVinsAux u tx.vin).1
        tx.vout.enum).1 rest := by
  have h0 : commitTxsAux u (tx :: rest) =
      (match commitVinsAux u tx.vin with
       | (u2, some e) => (u2, some e)
       | (u2, none) =>
         match commitVoutsAux tx.txid u2 tx.vout.enum with
         | (u3, some e) => (u3, some e)
         | (u3, none) => commitTxsAux u3 rest) := rfl
  rcases h1 : commitVinsAux u tx.vin with ⟨u2, e1⟩
  cases e1 with
  | some err =>
    exfalso
    rw [h0, h1] at h
    dsimp only at h
    exact Option.noConfusion h
  | none =>
    rcases h2 : commitVoutsAux tx.txid u2 tx.vout.enum with ⟨u3, e2⟩
    cases e2 with
    | some err =>
      exfalso
      rw [h0, h1] at h
      dsimp only at h
      rw [h2] at h
      dsimp only at h
      exact Option.noConfusion h
    | none =>
      refine ⟨rfl, ?_, ?_⟩
      · dsimp only
      · rw [h0, h1]
        dsimp only
        rw [h2]

theorem commitTx_get_formula (tx : Transaction) (u : UTXOSet)
    (h1 : (commitVinsAux u tx.vin).2 = none)
    (h2 : (commitVoutsAux tx.txid (commitVinsAux u tx.vin).1 tx.vout.enum).2 = none)
    (t2 : String) (v2 : Int) :
    (commitVoutsAux tx.txid (commitVinsAux u tx.vin).1 tx.vout.enum).1.get t2 v2 =
      (alookup (txPutAssoc tx) (t2, v2)).or
        (if (t2, v2) ∈ txVinKeys tx then none else u.get t2 v2) := by
  rw [commitVouts_get tx.vout.enum tx.txid _ h2 (enum_fst_nodup tx.vout) t2 v2]
  rw [commitVins_get tx.vin u h1 t2 v2]
  rfl

theorem commit_frame : ∀ (txs : List Transaction) (u : UTXOSet),
    (commitTxsAux u txs).2 = none →
    ∀ t2 v2, (t2, v2) ∉ blockOutKeys txs → (t2, v2) ∉ blockInKeys txs →
    (commitTxsAux u txs).1.get t2 v2 = u.get t2 v2
  | [], u => by
    intro _ t2 v2 _ _
    rfl
  | tx :: rest, u => by
    intro hok t2 v2 hout hin
    have hstep := commitTxs_cons_ok tx rest u hok
    rw [hstep.2.2] at hok ⊢
    rw [blockOutKeys_cons] at hout
    rw [blockInKeys_cons] at hin
    have hout1 : (t2, v2) ∉ (txPutAssoc tx).map (fun e => e.1) :=
      fun hh => hout (List.mem_append.mpr (Or.inl hh))
    have hout2 : (t2, v2) ∉ blockOutKeys rest :=
      fun hh => hout (List.mem_append.mpr (Or.inr hh))
    have hin1 : (t2, v2) ∉ txVinKeys tx :=
      fun hh => hin (List.mem_append.mpr (Or.inl hh))
    have hin2 : (t2, v2) ∉ blockInKeys rest :=
      fun hh => hin (List.mem_append.mpr (Or.inr hh))
    rw [commit_frame rest _ hok t2 v2 hout2 hin2]
    rw [commitTx_get_formula tx u hstep.1 hstep.2.1 t2 v2]
    rw [alookup_eq_none_of_not_mem _ _ hout1, if_neg hin1]
    rfl

theorem commit_none_preserved : ∀ (txs : List Transaction) (u : UTXOSet),
    (commitTxsAux u txs).2 = none →
    ∀ t2 v2, (t2, v2) ∉ blockOutKeys txs → u.get t2 v2 = none →
    (commitTxsAux u txs).1.get t2 v2 = none
  | [], u => by
    intro _ t2 v2 _ hnone
    exact hnone
  | tx :: rest, u => by
    intro hok t2 v2 hout hnone
    have hstep := commitTxs_cons_ok tx rest u hok
    rw [hstep.2.2] at hok ⊢
    rw [blockOutKeys_cons] at hout
    have hout1 : (t2, v2) ∉ (txPutAssoc tx).map (fun e => e.1) :=
      fun hh => hout (List.mem_append.mpr (Or.inl hh))
    have hout2 : (t2, v2) ∉ blockOutKeys rest :=
      fun hh => hout (List.mem_append.mpr (Or.inr hh))
    apply commit_none_preserved rest _ hok t2 v2 hout2
    rw [commitTx_get_formula tx u hstep.1 hstep.2.1 t2 v2]
    rw [alookup_eq_none_of_not_mem _ _ hout1]
    by_cases hv : (t2, v2) ∈ txVinKeys tx
    · rw [if_pos hv]
      rfl
    · rw [if_neg hv, hnone]
      rfl

theorem commit_inputs_deleted : ∀ (txs : List Transaction) (u : UTXOSet),
    (commitTxsAux u txs).2 = none →
    ∀ t2 v2, (t2, v2) ∈ blockInKeys txs → (t2, v2) ∉ blockOutKeys txs →
    (commitTxsAux u txs).1.get t2 v2 = none
  | [], u => by
    intro _ t2 v2 hin _
    simp [blockInKeys] at hin
  | tx :: rest, u => by
    intro hok t2 v2 hin hout
    have hstep := commitTxs_cons_ok tx rest u hok
    rw [hstep.2.2] at hok ⊢
    rw [blockInKeys_cons] at hin
    rw [blockOutKeys_cons] at hout
    have hout1 : (t2, v2) ∉ (txPutAssoc tx).map (fun e => e.1) :=
      fun hh => hout (List.mem_append.mpr (Or.inl hh))
    have hout2 : (t2, v2) ∉ blockOutKeys rest :=
      fun hh => hout (List.mem_append.mpr (Or.inr hh))
    rcases List.mem_append.mp hin with hintx | hinrest
    · apply commit_none_preserved rest _ hok t2 v2 hout2
      rw [commitTx_get_formula tx u hstep.1 hstep.2.1 t2 v2]
      rw [alookup_eq_none_of_not_mem _ _ hout1, if_pos hintx]
      rfl
    · exact commit_inputs_deleted rest _ hok t2 v2 hinrest hout2

theorem commit_outputs_present : ∀ (txs : List Transaction) (u : UTXOSet),
    (commitTxsAux u txs).2 = none → (blockOutKeys txs).Nodup →
    ∀ tx2, tx2 ∈ txs → ∀ e, e ∈ tx2.vout.enum →
    (tx2.txid, Int.ofNat e.1) ∉ blockInKeys txs →
    (commitTxsAux u txs).1.get tx2.txid (Int.ofNat e.1) =
      some ⟨tx2.txid, Int.ofNat e.1, e.2⟩
  | [], u => by
    intro _ _ tx2 htx2
    cases htx2
  | tx :: rest, u => by
    intro hok hnd tx2 htx2 e he hnin
    have hstep := commitTxs_cons_ok tx rest u hok
    rw [hstep.2.2] at hok ⊢
    rw [blockOutKeys_cons] at hnd
    rw [blockInKeys_cons] at hnin
    have hnd3 := List.nodup_append.mp hnd
    have hnin1 : (tx2.txid, Int.ofNat e.1) ∉ txVinKeys tx :=
      fun hh => hnin (List.mem_append.mpr (Or.inl hh))
    have hnin2 : (tx2.txid, Int.ofNat e.1) ∉ blockInKeys rest :=
      fun hh => hnin (List.mem_append.mpr (Or.inr hh))
    rcases List.mem_cons.mp htx2 with heq | hmem
    · subst heq
      have hkey : ((tx2.txid, Int.ofNat e.1), (⟨tx2.txid, Int.ofNat e.1, e.2⟩ : UTXO))
          ∈ txPutAssoc tx2 :=
        List.mem_map.mpr ⟨e, he, rfl⟩
      have hkmem : (tx2.txid, Int.ofNat e.1) ∈ (txPutAssoc tx2).map (fun e => e.1) :=
        List.mem_map.mpr ⟨_, hkey, rfl⟩
      have houtrest : (tx2.txid, Int.ofNat e.1) ∉ blockOutKeys rest :=
        fun hh => hnd3.2.2 hkmem hh
      rw [commit_frame rest _ hok _ _ houtrest hnin2]
      rw [commitTx_get_formula tx2 u hstep.1 hstep.2.1 _ _]
      rw [alookup_of_mem_nodup _ _ _ hkey hnd3.1]
      rfl
    · exact commit_outputs_present rest _ hok hnd3.2.1 tx2 hmem e he hnin2

/-- C3 counterexample: block commit is not atomic and the success
    postcondition fails for chained blocks.  First scenario: a transaction
    spending one existing and one missing outpoint makes CommitBlock return
    an error after already deleting the existing outpoint, so the UTXOSet
    differs from its pre-call state.  Second scenario: a block in which the
    second transaction spends the first one's output commits successfully
    with Get(t1, 0) = None, though the claim demands Some for every output
    of every transaction in the block. -/
theorem c3_counterexample :
    ((commitBlock [c3TxA] c3SetA).2 ≠ none ∧
     (commitBlock [c3TxA] c3SetA).1 ≠ c3SetA ∧
     (commitBlock [c3TxA] c3SetA).1.get "aa" 0 = none ∧
     c3SetA.get "aa" 0 ≠ none) ∧
    ((commitBlock [c3Tx1, c3Tx2] c3SetB).2 = none ∧
     (commitBlock [c3Tx1, c3Tx2] c3SetB).1.get "t1" 0 = none) := by
  decide

/-- C3 amended: CommitBlock applies each transaction sequentially (inputs
    deleted, then outputs inserted), returning the first error and keeping
    the mutations already made.  After a SUCCESSFUL CommitBlock over a block
    whose output outpoints are pairwise distinct: every non-coinbase input
    outpoint that is not also an output outpoint of the block reads as
    None, and every output outpoint (tx.txid, i) that is not spent inside
    the block reads as Some of that output. -/
theorem c3_commit_sequential (txs : List Transaction) (u : UTXOSet)
    (hok : (commitBlock txs u).2 = none)
    (hnd : (blockOutKeys txs).Nodup) :
    (∀ tx ∈ txs, ∀ vin ∈ tx.vin, vin.txid ≠ "" →
       (vin.txid, vin.vout) ∉ blockOutKeys txs →
       (commitBlock txs u).1.get vin.txid vin.vout = none) ∧
    (∀ tx ∈ txs, ∀ e ∈ tx.vout.enum,
       (tx.txid, Int.ofNat e.1) ∉ blockInKeys txs →
       (commitBlock txs u).1.get tx.txid (Int.ofNat e.1) =
         some ⟨tx.txid, Int.ofNat e.1, e.2⟩) := by
  constructor
  · intro tx htx vin hvin hnc hout
    have hmemkeys : (vin.txid, vin.vout) ∈ blockInKeys txs := by
      apply List.mem_flatten.mpr
      refine ⟨txVinKeys tx, List.mem_map.mpr ⟨tx, htx, rfl⟩, ?_⟩
      exact List.mem_map.mpr ⟨vin, List.mem_filter.mpr ⟨hvin, by simpa using hnc⟩, rfl⟩
    exact commit_inputs_deleted txs u hok vin.txid vin.vout hmemkeys hout
  · intro tx htx e he hnin
    exact commit_outputs_present txs u hok hnd tx htx e he hnin

/-- Witness for C3 amended at a one-transaction block: the spent outpoint
    (gg, 0) is gone and the new outpoint (t1, 0) is present. -/
theorem c3_witness :
    (commitBlock [c3Tx1] c3SetB).1.get "gg" 0 = none ∧
    (commitBlock [c3Tx1] c3SetB).1.get "t1" 0 =
      some ⟨"t1", 0, ⟨10, 0, cSpk⟩⟩ := by
  have h := c3_commit_sequential [c3Tx1] c3SetB (by decide) (by decide)
  constructor
  · exact h.1 c3Tx1 (by decide) ⟨"gg", 0, ⟨"", ""⟩⟩ (by decide) (by decide) (by decide)
  · exact h.2 c3Tx1 (by decide) (0, ⟨10, 0, cSpk⟩) (by decide) (by decide)

theorem hasDupAux_false_iff : ∀ (l : List VIN) (seen : List (String × Int)),
    hasDupAux seen l = false ↔
      ((l.map (fun v => (v.txid, v.vout))).Nodup ∧
       ∀ k ∈ l.map (fun v => (v.txid, v.vout)), k ∉ seen)
  | [], seen => by simp [hasDupAux]
  | vin :: rest, seen => by
    simp only [hasDupAux, List.map_cons]
    by_cases hm : (vin.txid, vin.vout) ∈ seen
    · rw [if_pos hm]
      constructor
      · intro h
        cases h
      · rintro ⟨_, hall⟩
        exact absurd hm (hall _ (List.mem_cons_self _ _))
    · rw [if_neg hm]
      rw [hasDupAux_false_iff rest ((vin.txid, vin.vout) :: seen)]
      constructor
      · rintro ⟨hnd, hall⟩
        refine ⟨List.nodup_cons.mpr ⟨?_, hnd⟩, ?_⟩
        · intro hcon
          exact (hall _ hcon) (List.mem_cons_self _ _)
        · intro k hk
          rcases List.mem_cons.mp hk with h | h
          · subst h
            exact hm
          · intro hks
            exact (hall k h) (List.mem_cons_of_mem _ hks)
      · rintro ⟨hnd, hall⟩
        have hnd2 := List.nodup_cons.mp hnd
        refine ⟨hnd2.2, ?_⟩
        intro k hk hks
        rcases List.mem_cons.mp hks with h | h
        · subst h
          exact hnd2.1 hk
        · exact (hall k (List.mem_cons_of_mem _ hk)) h

theorem hasDupInputs_false_iff (l : List VIN) :
    hasDupInputs l = false ↔ (l.map (fun v => (v.txid, v.vout))).Nodup := by
  unfold hasDupInputs
  rw [hasDupAux_false_iff]
  simp

theorem checkOutputsAux_eq : ∀ (l : List VOUT) (acc : Int),
    checkOutputsAux l acc =
      (if l.all (fun o => decide (0 < o.value))
       then some (l.foldl (fun a o => wrap64 (a + o.value)) acc)
       else none)
  | [], acc => by simp [checkOutputsAux]
  | out :: rest, acc => by
    simp only [checkOutputsAux, List.all_cons]
    by_cases hv : out.value ≤ 0
    · rw [if_pos hv]
      have : decide (0 < out.value) = false := by
        simp
        omega
      simp [this]
    · rw [if_neg hv]
      rw [checkOutputsAux_eq rest (wrap64 (acc + out.value))]
      have : decide (0 < out.value) = true := by
        simp
        omega
      simp [this]

theorem verifyInputsAux_eq (ed : Bytes → Bytes → Bytes → Bool) (t : Transaction)
    (us : UTXOSet) (m : Mempool) : ∀ (l : List VIN) (i : Nat) (acc : Int),
    verifyInputsAux ed t us m l i acc =
      (if (l.enumFrom i).all (fun e => singleInputOk ed t us m e.1 e.2)
       then some (l.foldl (fun a v => wrap64 (a + prevValue us m v)) acc)
       else none)
  | [], i, acc => by simp [verifyInputsAux]
  | vin :: rest, i, acc => by
    simp only [List.enumFrom_cons, List.all_cons, List.foldl_cons]
    by_cases hc : vin.txid = ""
    · simp [verifyInputsAux, singleInputOk, hc]
    · by_cases hsp : m.isSpent vin.txid vin.vout
      · simp [verifyInputsAux, singleInputOk, hc, hsp]
      · cases hr : resolvePrevOut us m vin with
        | none =>
          simp [verifyInputsAux, singleInputOk, hc, hsp, hr]
        | some prevOut =>
          cases hd : hexDecode vin.scriptSig.hex with
          | none =>
            simp [verifyInputsAux, singleInputOk, inputScriptOk, hc, hsp, hr, hd]
          | some sb =>
            by_cases hlen : sb.length = 96
            · cases hspk : hexDecode prevOut.scriptPubKey.hex with
              | none =>
                simp [verifyInputsAux, singleInputOk, inputScriptOk,
                  hc, hsp, hr, hd, hspk, hlen]
              | some spk =>
                by_cases hsl : spk.length < 25
                · have hsl2 : ¬ 25 ≤ spk.length := by omega
                  simp [verifyInputsAux, singleInputOk, inputScriptOk,
                    hc, hsp, hr, hd, hspk, hlen, hsl, hsl2]
                · by_cases hh : hashPubKey (sb.drop 64) = (spk.drop 3).take 20
                  · by_cases hed : ed (sb.drop 64)
                        (sighashForInput t i (hexEncode spk)) (sb.take 64)
                    · have hrec := verifyInputsAux_eq ed t us m rest (i + 1)
                        (wrap64 (acc + prevOut.value))
                      have hpv : prevValue us m vin = prevOut.value := by
                        simp [prevValue, hr]
                      have hsl2 : 25 ≤ spk.length := by omega
                      have hhead : singleInputOk ed t us m i vin = true := by
                        simp [singleInputOk, inputScriptOk, hc, hsp, hr, hd,
                          hlen, hspk, hsl2, hh, hed]
                      have hstep : verifyInputsAux ed t us m (vin :: rest) i acc =
                          verifyInputsAux ed t us m rest (i + 1)
                            (wrap64 (acc + prevOut.value)) := by
                        simp [verifyInputsAux, hc, hsp, hr, hd, hlen, hspk,
                          hsl, hh, hed]
                      rw [hstep, hrec, hhead, hpv]
                      rw [Bool.true_and]
                    · simp [verifyInputsAux, singleInputOk, inputScriptOk,
                        hc, hsp, hr, hd, hspk, hlen, hsl, hh, hed]
                  · simp [verifyInputsAux, singleInputOk, inputScriptOk,
                      hc, hsp, hr, hd, hspk, hlen, hsl, hh]
            · simp [verifyInputsAux, singleInputOk, inputScriptOk,
                hc, hsp, hr, hd, hlen]

theorem enumFrom_all_split (ed : Bytes → Bytes → Bytes → Bool) (t : Transaction)
    (us : UTXOSet) (m : Mempool) : ∀ (l : List VIN) (i : Nat),
    (l.enumFrom i).all (fun e => singleInputOk ed t us m e.1 e.2) =
      (l.all (fun v => decide (v.txid ≠ "")) &&
       l.all (fun v => !(m.isSpent v.txid v.vout)) &&
       l.all (fun v => (resolvePrevOut us m v).isSome) &&
       (l.enumFrom i).all (fun e => inputScriptOk ed t us m e.1 e.2))
  | [], i => by simp
  | vin :: rest, i => by
    simp only [List.enumFrom_cons, List.all_cons]
    rw [enumFrom_all_split ed t us m rest (i + 1)]
    unfold singleInputOk
    cases hcA : decide (vin.txid ≠ "") <;>
      cases hcB : !(m.isSpent vin.txid vin.vout) <;>
      cases hcC : (resolvePrevOut us m vin).isSome <;>
      cases hcD : inputScriptOk ed t us m i vin <;>
      simp

/-- C6 (amended): VerifyForMempool decides exactly the itemized conditions —
    non-empty vin/vout, no coinbase input, no duplicate inputs, no
    mempool-spent input, every input resolvable, every scriptSig/signature
    valid, every output positive — with the final sums compared as the
    int64-wrapped running totals the code computes, not as exact integers. -/
theorem c6_verify_eq (ed : Bytes → Bytes → Bytes → Bool) (t : Transaction)
    (us : UTXOSet) (m : Mempool) :
    verifyForMempool ed t us m = specVerifyForMempoolWrapped ed t us m := by
  unfold verifyForMempool specVerifyForMempoolWrapped
  by_cases h0 : t.vin.length = 0 ∨ t.vout.length = 0
  · rw [if_pos h0]
    unfold specVerifyConditions
    rcases h0 with h | h
    · have hnil : t.vin = [] := List.length_eq_zero.mp h
      simp [hnil]
    · have hnil : t.vout = [] := List.length_eq_zero.mp h
      simp [hnil]
  · rw [if_neg h0]
    push_neg at h0
    have hvin : t.vin ≠ [] := by
      intro hh
      exact h0.1 (by simp [hh])
    have hvout : t.vout ≠ [] := by
      intro hh
      exact h0.2 (by simp [hh])
    by_cases hdup : hasDupInputs t.vin = true
    · rw [if_pos hdup]
      have hnnd : ¬ (t.vin.map (fun v => (v.txid, v.vout))).Nodup := by
        intro hnd
        rw [← hasDupInputs_false_iff] at hnd
        rw [hdup] at hnd
        exact absurd hnd (by decide)
      unfold specVerifyConditions
      simp [hnnd]
    · rw [if_neg hdup]
      have hdf : hasDupInputs t.vin = false := Bool.eq_false_iff.mpr hdup
      have hnd : (t.vin.map (fun v => (v.txid, v.vout))).Nodup :=
        (hasDupInputs_false_iff t.vin).mp hdf
      rw [verifyInputsAux_eq, enumFrom_all_split]
      by_cases hall :
          (t.vin.all (fun v => decide (v.txid ≠ "")) &&
           t.vin.all (fun v => !(m.isSpent v.txid v.vout)) &&
           t.vin.all (fun v => (resolvePrevOut us m v).isSome) &&
           (t.vin.enumFrom 0).all
             (fun e => inputScriptOk ed t us m e.1 e.2)) = true
      · rw [if_pos hall]
        dsimp only
        simp only [Bool.and_eq_true] at hall
        obtain ⟨⟨⟨hA, hB⟩, hC⟩, hD⟩ := hall
        rw [checkOutputsAux_eq]
        by_cases houts : t.vout.all (fun o => decide (0 < o.value)) = true
        · rw [if_pos houts]
          dsimp only
          have hsc : specVerifyConditions ed t us m = true := by
            unfold specVerifyConditions
            rw [hA, hB, hC, hD, houts]
            simp [hvin, hvout, hnd]
          rw [hsc, Bool.true_and]
          rfl
        · rw [if_neg houts]
          dsimp only
          have hof : t.vout.all (fun o => decide (0 < o.value)) = false :=
            Bool.eq_false_iff.mpr houts
          unfold specVerifyConditions
          simp [hof]
      · rw [if_neg hall]
        dsimp only
        have h4 := Bool.eq_false_iff.mpr hall
        simp only [Bool.and_eq_false_iff] at h4
        unfold specVerifyConditions
        rcases h4 with ((h | h) | h) | h <;>
          simp only [h, Bool.and_false, Bool.false_and]

/-- Counterexample to C6 as stated: with two resolvable inputs of value
    2^63 − 1 each, the exact input sum exceeds the output sum, so the
    claim's conditions all hold, yet the code's int64-wrapped input sum is
    −2 and VerifyForMempool rejects the transaction. -/
theorem c6_counterexample :
    verifyForMempool edAcceptAll ovTx ovSet emptyMempool = false ∧
    specVerifyForMempoolExact edAcceptAll ovTx ovSet emptyMempool = true := by
  constructor
  · decide
  · decide
